import Mathlib

set_option maxRecDepth 100000

/-!
Shallow embedding of the MiniVSFS tools:
  * `format`  — from `mkfs_builder.c` (Fresh version 2.1), `main`
  * `addFile` — from `mkfs_adder.c` (OS_Project_Update2.0), `main`
Bytes are `Nat` values below 256, bitmaps are `Nat` values viewed as bit
sets (bit `i` of the integer corresponds to bit `i & 7` of byte `i >> 3`
of the on-disk bitmap block, exactly the addressing used by `set_bit` /
`test_bit` in the C sources), and each data-region block is a byte list
that is implicitly zero-extended to the 4096-byte block size (the C code
always `memset`s a block to zero before writing a prefix of it).
-/

namespace MiniVSFS

/-- `BS` in both C files: the fixed block size. -/
def BS : Nat := 4096

/-- `INODE_SIZE` in both C files. -/
def INODE_SIZE : Nat := 128

/-- `ROOT_INO` in both C files. -/
def ROOT_INO : Nat := 1

/-- `DIRECT_MAX` in both C files. -/
def DIRECT_MAX : Nat := 12

/-- The superblock magic number `0x4D565346` ('MVSF'). -/
def MAGIC : Nat := 0x4D565346

/-! ### CRC32 (from `crc32_init` / `crc32` in both C files) -/

/-- One round of the CRC32 table construction:
`c = (c&1) ? (0xEDB88320 ^ (c>>1)) : (c>>1)`. -/
def crcRound (c : Nat) : Nat :=
  if c % 2 = 1 then 0xEDB88320 ^^^ (c / 2) else c / 2

/-- `CRC32_TAB[i]` as computed by `crc32_init`: eight rounds of `crcRound`
starting from `i`.  (The C code memoizes this in a 256-entry table.) -/
def crc32Tab (i : Nat) : Nat := crcRound^[8] i

/-- One step of the CRC32 loop body:
`c = CRC32_TAB[(c ^ p[i]) & 0xFF] ^ (c >> 8)`. -/
def crc32Update (c b : Nat) : Nat := crc32Tab ((c ^^^ b) % 256) ^^^ (c / 256)

/-- `crc32(data, n)`: fold the update over the bytes, with initial and final
XOR with all-ones. -/
def crc32 (bs : List Nat) : Nat :=
  (bs.foldl crc32Update 0xFFFFFFFF) ^^^ 0xFFFFFFFF

/-! ### Little-endian field encodings (the packed struct layouts) -/

/-- Two bytes, little endian (a `uint16_t` field). -/
def le16 (n : Nat) : List Nat := [n % 256, n / 256 % 256]

/-- Four bytes, little endian (a `uint32_t` field). -/
def le32 (n : Nat) : List Nat :=
  [n % 256, n / 256 % 256, n / 65536 % 256, n / 16777216 % 256]

/-- Eight bytes, little endian (a `uint64_t` field). -/
def le64 (n : Nat) : List Nat :=
  le32 (n % 4294967296) ++ le32 (n / 4294967296)

/-! ### Records (`superblock_t`, `inode_t`, `dirent64_t`) -/

/-- `superblock_t` (116 packed bytes in the C sources). -/
structure Superblock where
  magic : Nat
  version : Nat
  block_size : Nat
  total_blocks : Nat
  inode_count : Nat
  inode_bitmap_start : Nat
  inode_bitmap_blocks : Nat
  data_bitmap_start : Nat
  data_bitmap_blocks : Nat
  inode_table_start : Nat
  inode_table_blocks : Nat
  data_region_start : Nat
  data_region_blocks : Nat
  root_inode : Nat
  mtime_epoch : Nat
  flags : Nat
  checksum : Nat
deriving DecidableEq

/-- The 116-byte packed serialization of `superblock_t`, field by field. -/
def sbEncode (sb : Superblock) : List Nat :=
  le32 sb.magic ++ le32 sb.version ++ le32 sb.block_size ++
  le64 sb.total_blocks ++ le64 sb.inode_count ++
  le64 sb.inode_bitmap_start ++ le64 sb.inode_bitmap_blocks ++
  le64 sb.data_bitmap_start ++ le64 sb.data_bitmap_blocks ++
  le64 sb.inode_table_start ++ le64 sb.inode_table_blocks ++
  le64 sb.data_region_start ++ le64 sb.data_region_blocks ++
  le64 sb.root_inode ++ le64 sb.mtime_epoch ++
  le32 sb.flags ++ le32 sb.checksum

/-- `superblock_crc_finalize`: zero the checksum field, copy into a
zero-filled block-sized buffer, CRC32 the first `BS - 4` bytes. -/
def sbCrc (sb : Superblock) : Nat :=
  crc32 (((sbEncode { sb with checksum := 0 }) ++
          List.replicate (BS - 116) 0).take (BS - 4))

/-- `inode_t` (128 packed bytes; `direct` has 12 entries). -/
structure Inode where
  mode : Nat
  links : Nat
  uid : Nat
  gid : Nat
  size_bytes : Nat
  atime : Nat
  mtime : Nat
  ctime : Nat
  direct : List Nat
  reserved_0 : Nat
  reserved_1 : Nat
  reserved_2 : Nat
  proj_id : Nat
  uid16_gid16 : Nat
  xattr_ptr : Nat
  inode_crc : Nat
deriving DecidableEq

/-- The all-zero inode (a `memset`-to-zero inode-table slot). -/
def zeroInode : Inode :=
  { mode := 0, links := 0, uid := 0, gid := 0, size_bytes := 0,
    atime := 0, mtime := 0, ctime := 0, direct := List.replicate 12 0,
    reserved_0 := 0, reserved_1 := 0, reserved_2 := 0, proj_id := 0,
    uid16_gid16 := 0, xattr_ptr := 0, inode_crc := 0 }

/-- The first 120 of the 128 packed inode bytes (everything before the
trailing 8-byte `inode_crc` field). -/
def inodeEncode120 (i : Inode) : List Nat :=
  le16 i.mode ++ le16 i.links ++ le32 i.uid ++ le32 i.gid ++
  le64 i.size_bytes ++ le64 i.atime ++ le64 i.mtime ++ le64 i.ctime ++
  (i.direct.map le32).flatten ++
  le32 i.reserved_0 ++ le32 i.reserved_1 ++ le32 i.reserved_2 ++
  le32 i.proj_id ++ le32 i.uid16_gid16 ++ le64 i.xattr_ptr

/-- `inode_crc_finalize`: CRC32 over the first 120 bytes (the copy in the
C code zeroes the last 8 bytes, which are excluded from the CRC anyway). -/
def inodeCrcFinalize (i : Inode) : Inode :=
  { i with inode_crc := crc32 (inodeEncode120 i) }

/-- `dirent64_t` (64 packed bytes; `name` is a 58-byte zero-padded field). -/
structure Dirent where
  inode_no : Nat
  type : Nat
  name : List Nat
  checksum : Nat
deriving DecidableEq

/-- The `namebuf[58]` construction: zero-filled buffer receiving at most 58
bytes of the name. -/
def padName (s : List Nat) : List Nat :=
  s.take 58 ++ List.replicate (58 - s.length) 0

/-- The 64-byte packed serialization of `dirent64_t`. -/
def direntEncode (d : Dirent) : List Nat :=
  le32 d.inode_no ++ [d.type % 256] ++
  (d.name ++ List.replicate (58 - d.name.length) 0).take 58 ++
  [d.checksum % 256]

/-- Byte-wise XOR of a byte list (`x ^= p[i]`). -/
def xorBytes (bs : List Nat) : Nat := bs.foldl (fun a b => a ^^^ b) 0

/-- `dirent_checksum_finalize`: XOR of the first 63 packed bytes. -/
def direntFinalize (d : Dirent) : Dirent :=
  { d with checksum := xorBytes ((direntEncode d).take 63) }

/-! ### Bitmaps and blocks -/

/-- `set_bit`: OR in bit `idx` (of the bitmap viewed as a little-endian
bit string, exactly the C byte/bit addressing). -/
def setBit (bmap idx : Nat) : Nat := bmap ||| 2 ^ idx

/-- Repeated `set_bit` over a list of indices. -/
def setBits (bmap : Nat) (idxs : List Nat) : Nat := idxs.foldl setBit bmap

/-- The ascending list of free (clear) bit indices below `limit`; the C
first-fit loops enumerate exactly this list in this order. -/
def freeIdxs (bmap limit : Nat) : List Nat :=
  (List.range limit).filter (fun i => ! bmap.testBit i)

/-- First-fit scan for one free bit (`find free inode` / extension-block
loops in `mkfs_adder.c`): the first clear bit below `limit`, if any. -/
def firstFree (bmap limit : Nat) : Option Nat := (freeIdxs bmap limit).head?

/-- First-fit collection of the first `k` free bits below `limit`
(the data-block allocation loop in `mkfs_adder.c`). -/
def firstFreeList (bmap limit k : Nat) : List Nat := (freeIdxs bmap limit).take k

/-- Byte `i` of a block, under the zero-extension convention. -/
def blockByte (blk : List Nat) (i : Nat) : Nat := (blk.get? i).getD 0

/-- The full 4096-byte content of a block (zero-extended). -/
def blockBytes (blk : List Nat) : List Nat :=
  (blk ++ List.replicate (BS - blk.length) 0).take BS

/-- Write `bs` into a block at byte offset `off`, preserving the bytes
before and after (with zero-extension up to `off` if needed). -/
def writeBytes (blk : List Nat) (off : Nat) (bs : List Nat) : List Nat :=
  ((List.range off).map (blockByte blk)) ++ bs ++ blk.drop (off + bs.length)

/-- The `inode_no` field of directory-entry slot `slot` of a block:
the little-endian `uint32_t` at byte offset `64 * slot`. -/
def direntNoAt (blk : List Nat) (slot : Nat) : Nat :=
  blockByte blk (64 * slot) + blockByte blk (64 * slot + 1) * 256 +
  blockByte blk (64 * slot + 2) * 65536 + blockByte blk (64 * slot + 3) * 16777216

/-- First free directory-entry slot of a block (`e->inode_no == 0` scan
over the `BS / 64` slots). -/
def findFreeSlot (blk : List Nat) : Option Nat :=
  (List.range (BS / 64)).find? (fun s => direntNoAt blk s == 0)

/-! ### The image -/

/-- A MiniVSFS image, as structured by the superblock layout: superblock,
the two one-block bitmaps, the inode table, and the data region. -/
structure Image where
  sb : Superblock
  inodeBmap : Nat
  dataBmap : Nat
  itable : List Inode
  dataRegion : List (List Nat)
deriving DecidableEq

/-- Total number of blocks an image occupies, given the fixed layout
(superblock + bitmaps + inode table in front, data region last); this is
the structured counterpart of `img_bytes / BS` in `mkfs_adder.c`. -/
def Image.totalBlocks (img : Image) : Nat :=
  img.sb.data_region_start + img.dataRegion.length

/-- Data-region block referenced by absolute block number `abs`
(the C code indexes `img + BS * abs`; relative to the data region this is
`abs - data_region_start`). -/
def blockRel (region : List (List Nat)) (drs abs : Nat) : List Nat :=
  region.getD (abs - drs) []

/-! ### `format` (mkfs_builder.c `main`) -/

/-- `total_blocks = size_kib * 1024 / BS`. -/
def totalBlocksOf (size_kib : Nat) : Nat := size_kib * 1024 / BS

/-- `inode_tbl_blks = (inodes + inodes_per_blk - 1) / inodes_per_blk`
with `inodes_per_blk = BS / INODE_SIZE`. -/
def itableBlocksOf (inodes : Nat) : Nat :=
  (inodes + BS / INODE_SIZE - 1) / (BS / INODE_SIZE)

/-- The CLI bounds checked by `parse_cli` in `mkfs_builder.c`:
`size_kib` in `[180, 4096]` and a multiple of 4, `inodes` in `[128, 512]`. -/
def cliOk (size_kib inodes : Nat) : Bool :=
  180 ≤ size_kib && size_kib ≤ 4096 && size_kib % 4 = 0 &&
  128 ≤ inodes && inodes ≤ 512

/-- The capacity check in `mkfs_builder.c` `main`:
the image must hold superblock, bitmaps, inode table and one data block. -/
def capacityOk (size_kib inodes : Nat) : Bool :=
  3 + itableBlocksOf inodes + 1 ≤ totalBlocksOf size_kib

/-- The root inode constructed by `mkfs_builder.c`: directory mode, two
links, size of two directory entries, first direct pointer at the first
data-region block, CRC finalized.  (`0o40000` = 16384.) -/
def rootInode (drs t : Nat) : Inode :=
  inodeCrcFinalize
    { mode := 16384, links := 2, uid := 0, gid := 0,
      size_bytes := 2 * 64, atime := t, mtime := t, ctime := t,
      direct := drs :: List.replicate 11 0,
      reserved_0 := 0, reserved_1 := 0, reserved_2 := 0, proj_id := 0,
      uid16_gid16 := 0, xattr_ptr := 0, inode_crc := 0 }

/-- The `.` entry of the root directory (type 2, inode `ROOT_INO`). -/
def dotEntry : Dirent :=
  direntFinalize { inode_no := ROOT_INO, type := 2, name := padName [46], checksum := 0 }

/-- The `..` entry of the root directory. -/
def dotdotEntry : Dirent :=
  direntFinalize { inode_no := ROOT_INO, type := 2, name := padName [46, 46], checksum := 0 }

/-- `format` (`mkfs_builder.c` `main` after the CLI and capacity checks):
build the superblock with the computed layout and finalized checksum, seed
bit 0 of both bitmaps, place the root inode at inode-table index 0, and
write the two root directory entries into the first data-region block.
`t` stands for the `time(NULL)` value.  `formatSb0` is the superblock
before its checksum is finalized. -/
def formatSb0 (size_kib inodes t : Nat) : Superblock :=
  { magic := MAGIC, version := 1, block_size := BS,
    total_blocks := totalBlocksOf size_kib, inode_count := inodes,
    inode_bitmap_start := 1, inode_bitmap_blocks := 1,
    data_bitmap_start := 2, data_bitmap_blocks := 1,
    inode_table_start := 3, inode_table_blocks := itableBlocksOf inodes,
    data_region_start := 3 + itableBlocksOf inodes,
    data_region_blocks := totalBlocksOf size_kib - (3 + itableBlocksOf inodes),
    root_inode := ROOT_INO, mtime_epoch := t, flags := 0, checksum := 0 }

def format (size_kib inodes t : Nat) : Image :=
  { sb := { formatSb0 size_kib inodes t with
            checksum := sbCrc (formatSb0 size_kib inodes t) },
    inodeBmap := setBit 0 0,
    dataBmap := setBit 0 0,
    itable := rootInode (3 + itableBlocksOf inodes) t ::
              List.replicate (inodes - 1) zeroInode,
    dataRegion := (direntEncode dotEntry ++ direntEncode dotdotEntry) ::
                  List.replicate (totalBlocksOf size_kib - (3 + itableBlocksOf inodes) - 1) [] }

/-! ### `addFile` (mkfs_adder.c `main`) -/

/-- The error outcomes of `mkfs_adder.c` `main` (its distinct failure
exits after the image has been read): `formatError` is the superblock
validation failure (exit 3), `fileTooLarge` the 12-direct-block limit
(exit 5), `noSpace` the free-inode / free-data-block failures (exit 6 and
the extension-block failure), `dirFull` the exhausted root direct-pointer
array (exit 7). -/
inductive AddErr where
  | formatError
  | fileTooLarge
  | noSpace
  | dirFull
deriving DecidableEq

/-- The superblock validation performed by `mkfs_adder.c` (lines 169-174):
magic, version, block size, and the stored `total_blocks` against the
image's actual block count.  Note that the stored checksum is not
recomputed or compared. -/
def validateSb (img : Image) : Bool :=
  img.sb.magic == MAGIC && img.sb.version == 1 && img.sb.block_size == BS &&
  img.sb.total_blocks == img.totalBlocks

/-- `ceil(fsize / BS)`, the `need_blocks` computation. -/
def needBlocks (fsize : Nat) : Nat := (fsize + BS - 1) / BS

/-- Bytes written into the `i`-th allocated block: the C code zeroes the
block and reads `toread` bytes (`BS` for non-final blocks, the remaining
`fsize - i*BS` for the final one), i.e. exactly this chunk of the source,
with the zero-extension convention supplying the padding. -/
def fileChunk (fdata : List Nat) (i : Nat) : List Nat :=
  (fdata.drop (i * BS)).take BS

/-- The data-writing loop: store chunk `pos` of the source at data-region
index `i` for each allocated index, in order. -/
def writeFileBlocksAux (fdata : List Nat) :
    List (List Nat) → List Nat → Nat → List (List Nat)
  | region, [], _ => region
  | region, i :: rest, pos =>
      writeFileBlocksAux fdata (region.set i (fileChunk fdata pos)) rest (pos + 1)

/-- Write the source chunks to the allocated data-region indices. -/
def writeFileBlocks (region : List (List Nat)) (dbIdxs : List Nat)
    (fdata : List Nat) : List (List Nat) :=
  writeFileBlocksAux fdata region dbIdxs 0

/-- The new file inode built by `mkfs_adder.c`: regular-file mode
(`0100000` octal = 32768), one link, the source size, the allocated
absolute block numbers in allocation order (remaining direct slots zero),
CRC finalized. -/
def mkFileInode (fsize now : Nat) (absBlocks : List Nat) : Inode :=
  inodeCrcFinalize
    { mode := 32768, links := 1, uid := 0, gid := 0,
      size_bytes := fsize, atime := now, mtime := now, ctime := now,
      direct := (absBlocks ++ List.replicate (12 - absBlocks.length) 0).take 12,
      reserved_0 := 0, reserved_1 := 0, reserved_2 := 0, proj_id := 0,
      uid16_gid16 := 0, xattr_ptr := 0, inode_crc := 0 }

/-- The mutations of `mkfs_adder.c` up to the directory step: set the
allocated inode bit and data bits, store the new inode at its table
index, and write the file chunks into the allocated blocks. -/
def addCore (img : Image) (fdata : List Nat) (now inoIdx : Nat)
    (dbIdxs : List Nat) : Image :=
  { img with
    inodeBmap := setBit img.inodeBmap inoIdx,
    dataBmap := setBits img.dataBmap dbIdxs,
    itable := img.itable.set inoIdx
      (mkFileInode fdata.length now
        (dbIdxs.map (fun i => img.sb.data_region_start + i))),
    dataRegion := writeFileBlocks img.dataRegion dbIdxs fdata }

/-- The scan over the root's direct pointers (`mkfs_adder.c` lines
253-273): walk the pointers in order, stopping at the first zero pointer;
in each referenced block look for a free 64-byte slot; return the
(absolute pointer, slot) of the first free slot found. -/
def scanPtrs (region : List (List Nat)) (drs : Nat) : List Nat → Option (Nat × Nat)
  | [] => none
  | p :: rest =>
      if p = 0 then none
      else
        match findFreeSlot (blockRel region drs p) with
        | some s => some (p, s)
        | none => scanPtrs region drs rest

/-- The directory entry built for the new file: type 1, the (truncated,
zero-padded) base name, the 1-based inode number, XOR checksum. -/
def newDirent (no : Nat) (nameBytes : List Nat) : Dirent :=
  direntFinalize { inode_no := no, type := 1, name := padName nameBytes, checksum := 0 }

/-- The root-inode update after a directory entry is placed: size grows by
one entry, mtime/ctime refreshed, link count incremented (`root->links += 1`
in `mkfs_adder.c`), CRC refreshed. -/
def bumpRoot (r : Inode) (now : Nat) : Inode :=
  inodeCrcFinalize
    { r with size_bytes := r.size_bytes + 64, mtime := now, ctime := now,
             links := r.links + 1 }

/-- Result image when the new entry is placed at slot `s` of the existing
root block with absolute pointer `p` (`mkfs_adder.c` lines 253-273): write
the 64-byte entry at offset `64 * s` of that block and update the root. -/
def placedImage (img1 : Image) (de : Dirent) (now p s : Nat) : Image :=
  { img1 with
    dataRegion := img1.dataRegion.set (p - img1.sb.data_region_start)
      (writeBytes (img1.dataRegion.getD (p - img1.sb.data_region_start) [])
        (64 * s) (direntEncode de)),
    itable := img1.itable.set 0 (bumpRoot (img1.itable.getD 0 zeroInode) now) }

/-- Result image when the root is extended with freshly allocated
data-region block `freeIdx`, registered at direct slot `slot`, holding the
new entry at its slot 0 (`mkfs_adder.c` lines 274-311). -/
def extendedImage (img1 : Image) (de : Dirent) (now slot freeIdx : Nat) : Image :=
  { img1 with
    dataBmap := setBit img1.dataBmap freeIdx,
    dataRegion := img1.dataRegion.set freeIdx (direntEncode de),
    itable := img1.itable.set 0
      (bumpRoot { img1.itable.getD 0 zeroInode with
          direct := (img1.itable.getD 0 zeroInode).direct.set slot
            (img1.sb.data_region_start + freeIdx) } now) }

/-- The directory-entry placement step of `mkfs_adder.c` (lines 244-311):
either place the entry in a free slot of an existing root block, or extend
the root with a freshly allocated data block holding the entry at slot 0. -/
def placeDirent (img1 : Image) (no : Nat) (nameBytes : List Nat) (now : Nat) :
    Except AddErr Image :=
  match scanPtrs img1.dataRegion img1.sb.data_region_start
      (img1.itable.getD 0 zeroInode).direct with
  | some ps => .ok (placedImage img1 (newDirent no nameBytes) now ps.1 ps.2)
  | none =>
      match (img1.itable.getD 0 zeroInode).direct.enum.find? (fun q => q.2 == 0) with
      | none => .error .dirFull
      | some slot =>
          match firstFree img1.dataBmap img1.sb.data_region_blocks with
          | none => .error .noSpace
          | some freeIdx =>
              .ok (extendedImage img1 (newDirent no nameBytes) now slot.1 freeIdx)

/-- `addFile` (`mkfs_adder.c` `main` after the image and source file have
been read): validate the superblock, enforce the 12-direct-block limit,
first-fit allocate an inode and `needBlocks` data blocks, perform the
mutations of `addCore`, place the directory entry, and return the mutated
image with the new 1-based inode number.  `now` stands for the
`time(NULL)` values. -/
def addFile (img : Image) (nameBytes fdata : List Nat) (now : Nat) :
    Except AddErr (Image × Nat) :=
  if validateSb img = false then .error .formatError
  else if DIRECT_MAX < needBlocks fdata.length then .error .fileTooLarge
  else
    match firstFree img.inodeBmap img.sb.inode_count with
    | none => .error .noSpace
    | some inoIdx =>
        if (firstFreeList img.dataBmap img.sb.data_region_blocks
              (needBlocks fdata.length)).length < needBlocks fdata.length then
          .error .noSpace
        else
          (placeDirent (addCore img fdata now inoIdx
              (firstFreeList img.dataBmap img.sb.data_region_blocks
                (needBlocks fdata.length)))
            (inoIdx + 1) nameBytes now).map (fun i2 => (i2, inoIdx + 1))

/-! ### Result projections and validity -/

instance {ε α : Type} [DecidableEq ε] [DecidableEq α] : DecidableEq (Except ε α) := fun x y =>
  match x, y with
  | .ok a, .ok b =>
      if h : a = b then .isTrue (by rw [h]) else .isFalse (fun hc => by cases hc; exact h rfl)
  | .error a, .error b =>
      if h : a = b then .isTrue (by rw [h]) else .isFalse (fun hc => by cases hc; exact h rfl)
  | .ok _, .error _ => .isFalse (fun hc => by cases hc)
  | .error _, .ok _ => .isFalse (fun hc => by cases hc)

/-- The image of a successful result. -/
def resImg : Except AddErr (Image × Nat) → Option Image
  | .ok p => some p.1
  | .error _ => none

/-- The 1-based inode number of a successful result. -/
def resNo : Except AddErr (Image × Nat) → Option Nat
  | .ok p => some p.2
  | .error _ => none

/-- The root inode of an image (inode-table index 0). -/
def Image.root (img : Image) : Inode := img.itable.getD 0 zeroInode

/-- Well-formedness of an image, as established by `format` and preserved
by `addFile`: the superblock validates, bit 0 of both bitmaps is set (root
inode, root directory block), the table and data region have the sizes the
superblock declares, and the root's nonzero direct pointers land in the
data region on blocks marked used. -/
def wf (img : Image) : Prop :=
  validateSb img = true ∧
  img.inodeBmap.testBit 0 = true ∧
  img.dataBmap.testBit 0 = true ∧
  img.itable.length = img.sb.inode_count ∧
  img.dataRegion.length = img.sb.data_region_blocks ∧
  img.sb.inode_count ≤ BS * 8 ∧
  img.sb.data_region_blocks ≤ BS * 8 ∧
  img.root.direct.length = 12 ∧
  (∀ p ∈ img.root.direct, p ≠ 0 →
    img.sb.data_region_start ≤ p ∧
    p < img.sb.data_region_start + img.sb.data_region_blocks ∧
    img.dataBmap.testBit (p - img.sb.data_region_start) = true)

instance (img : Image) : Decidable (wf img) := by
  unfold wf
  infer_instance

/-- Data-block index `i` was allocated between two image states: its data
bitmap bit is clear in `pre` and set in `post`. -/
def allocatedD (pre post : Image) (i : Nat) : Prop :=
  pre.dataBmap.testBit i = false ∧ post.dataBmap.testBit i = true

/-- Reassembled file content: concatenation of the first
`ceil(size/BS)` direct blocks (zero-extended to full blocks), truncated
to `size_bytes` — what the inspector reads back. -/
def readFile (img : Image) (ino : Inode) : List Nat :=
  (((ino.direct.take (needBlocks ino.size_bytes)).map
      (fun p => blockBytes (blockRel img.dataRegion img.sb.data_region_start p))).flatten).take
    ino.size_bytes

/-- The 58 name bytes of directory-entry slot `slot` of a block. -/
def direntNameAt (blk : List Nat) (slot : Nat) : List Nat :=
  (List.range 58).map (fun j => blockByte blk (64 * slot + 5 + j))

/-! ### Concrete fixtures (the 1024 KiB / 128-inode scenario of the spec) -/

/-- The formatted 1024 KiB, 128-inode image (timestamp 0). -/
def img0c : Image := format 1024 128 0

/-- `img0c` with a single bit of the stored superblock checksum flipped. -/
def imgCk : Image :=
  { img0c with sb := { img0c.sb with checksum := img0c.sb.checksum ^^^ 1 } }

/-- `img0c` with every data-region bit marked allocated. -/
def imgFullc : Image := { img0c with dataBmap := 2 ^ 249 - 1 }

/-! ## Basic lemmas -/

theorem xor_one_ne (n : Nat) : n ^^^ 1 ≠ n := by
  intro h
  have h0 : (n ^^^ 1).testBit 0 = n.testBit 0 := by rw [h]
  rw [Nat.testBit_xor] at h0
  have h1 : Nat.testBit 1 0 = true := rfl
  rw [h1, Bool.xor_true] at h0
  cases hb : n.testBit 0 <;> rw [hb] at h0 <;> exact Bool.noConfusion h0

theorem itableBlocks_eq (n : Nat) : itableBlocksOf n = (n * 128 + 4095) / 4096 := by
  unfold itableBlocksOf BS INODE_SIZE
  omega

theorem sbCrc_set_checksum (sb : Superblock) (c : Nat) :
    sbCrc { sb with checksum := c } = sbCrc sb := rfl

theorem format_checksum_valid (s i t : Nat) :
    (format s i t).sb.checksum = sbCrc (format s i t).sb :=
  (sbCrc_set_checksum (formatSb0 s i t) (sbCrc (formatSb0 s i t))).symm

theorem flipped_checksum_invalid (sb : Superblock) (h : sb.checksum = sbCrc sb) :
    ({ sb with checksum := sb.checksum ^^^ 1 } : Superblock).checksum ≠
      sbCrc { sb with checksum := sb.checksum ^^^ 1 } := by
  intro hc
  rw [sbCrc_set_checksum] at hc
  have e2 : ({ sb with checksum := sb.checksum ^^^ 1 } : Superblock).checksum =
      sb.checksum ^^^ 1 := rfl
  rw [e2, ← h] at hc
  exact xor_one_ne _ hc

/-! ### Bitmap lemmas -/

theorem testBit_setBit (b i j : Nat) :
    (setBit b i).testBit j = (b.testBit j || decide (i = j)) := by
  unfold setBit
  rw [Nat.testBit_lor, Nat.testBit_two_pow]

theorem testBit_setBit_self (b i : Nat) : (setBit b i).testBit i = true := by
  simp [testBit_setBit]

theorem testBit_setBit_ne (b : Nat) {i j : Nat} (h : i ≠ j) :
    (setBit b i).testBit j = b.testBit j := by
  simp [testBit_setBit, h]

theorem testBit_setBits (b : Nat) (l : List Nat) (j : Nat) :
    (setBits b l).testBit j = true ↔ (b.testBit j = true ∨ j ∈ l) := by
  induction l generalizing b with
  | nil => simp [setBits]
  | cons x xs ih =>
      show (setBits (setBit b x) xs).testBit j = true ↔ _
      rw [ih, testBit_setBit]
      simp only [Bool.or_eq_true, decide_eq_true_eq, List.mem_cons]
      constructor
      · rintro ((h | h) | h)
        · exact Or.inl h
        · exact Or.inr (Or.inl h.symm)
        · exact Or.inr (Or.inr h)
      · rintro (h | h | h)
        · exact Or.inl (Or.inl h)
        · exact Or.inl (Or.inr h.symm)
        · exact Or.inr h

theorem testBit_setBits_false (b : Nat) (l : List Nat) (j : Nat) :
    (setBits b l).testBit j = false ↔ (b.testBit j = false ∧ j ∉ l) := by
  have h := testBit_setBits b l j
  constructor
  · intro hf
    constructor
    · cases hb : b.testBit j with
      | false => rfl
      | true => rw [h.mpr (Or.inl hb)] at hf; exact Bool.noConfusion hf
    · intro hm
      rw [h.mpr (Or.inr hm)] at hf
      exact Bool.noConfusion hf
  · intro ⟨h1, h2⟩
    cases hs : (setBits b l).testBit j with
    | false => rfl
    | true =>
        rcases h.mp hs with h3 | h3
        · rw [h1] at h3; exact Bool.noConfusion h3
        · exact absurd h3 h2

/-! ### First-fit lemmas -/

theorem mem_freeIdxs {b limit i : Nat} :
    i ∈ freeIdxs b limit ↔ i < limit ∧ b.testBit i = false := by
  unfold freeIdxs
  simp [List.mem_filter, List.mem_range]

theorem freeIdxs_sorted (b limit : Nat) : (freeIdxs b limit).Pairwise (· < ·) :=
  List.Pairwise.sublist (List.filter_sublist _) (List.pairwise_lt_range limit)

theorem firstFree_spec {b limit i : Nat} (h : firstFree b limit = some i) :
    b.testBit i = false ∧ i < limit ∧
      ∀ j, b.testBit j = false → j < limit → i ≤ j := by
  unfold firstFree at h
  rcases List.head?_eq_some_iff.mp h with ⟨tail, htl⟩
  have hmem : i ∈ freeIdxs b limit := by rw [htl]; exact List.mem_cons_self i tail
  have hi := mem_freeIdxs.mp hmem
  refine ⟨hi.2, hi.1, ?_⟩
  intro j hj hjL
  have hjm : j ∈ freeIdxs b limit := mem_freeIdxs.mpr ⟨hjL, hj⟩
  rw [htl] at hjm
  rcases List.mem_cons.mp hjm with rfl | hjm
  · exact Nat.le_refl j
  · have hs := freeIdxs_sorted b limit
    rw [htl] at hs
    exact Nat.le_of_lt ((List.pairwise_cons.mp hs).1 j hjm)

theorem firstFree_isSome_of_free {b limit j : Nat}
    (hj : b.testBit j = false) (hjL : j < limit) :
    ∃ i, firstFree b limit = some i := by
  cases h : firstFree b limit with
  | some i => exact ⟨i, rfl⟩
  | none =>
      unfold firstFree at h
      have : j ∈ freeIdxs b limit := mem_freeIdxs.mpr ⟨hjL, hj⟩
      cases hl : freeIdxs b limit with
      | nil => rw [hl] at this; exact absurd this (List.not_mem_nil j)
      | cons a t => rw [hl] at h; exact Option.noConfusion h

theorem firstFreeList_length (b limit k : Nat) :
    (firstFreeList b limit k).length = min k (freeIdxs b limit).length :=
  List.length_take k (freeIdxs b limit)

theorem firstFreeList_sorted (b limit k : Nat) :
    (firstFreeList b limit k).Pairwise (· < ·) :=
  List.Pairwise.sublist (List.take_sublist k _) (freeIdxs_sorted b limit)

theorem firstFreeList_nodup (b limit k : Nat) :
    (firstFreeList b limit k).Nodup :=
  (firstFreeList_sorted b limit k).imp Nat.ne_of_lt

theorem mem_firstFreeList {b limit k i : Nat} (h : i ∈ firstFreeList b limit k) :
    i < limit ∧ b.testBit i = false :=
  mem_freeIdxs.mp (List.take_subset k _ h)

theorem lt_of_free_not_mem_firstFreeList {b limit k i j : Nat}
    (hj : j ∈ firstFreeList b limit k)
    (hi : b.testBit i = false) (hiL : i < limit)
    (hnot : i ∉ firstFreeList b limit k) :
    j < i := by
  have hmem : i ∈ freeIdxs b limit := mem_freeIdxs.mpr ⟨hiL, hi⟩
  have hsplit := List.take_append_drop k (freeIdxs b limit)
  have hsorted := freeIdxs_sorted b limit
  rw [← hsplit] at hsorted hmem
  have hidrop : i ∈ (freeIdxs b limit).drop k := by
    rcases List.mem_append.mp hmem with h1 | h1
    · exact absurd h1 hnot
    · exact h1
  exact (List.pairwise_append.mp hsorted).2.2 j hj i hidrop

/-! ### Data-write lemmas -/

theorem writeFileBlocksAux_length (fdata : List Nat) (region : List (List Nat))
    (idxs : List Nat) (pos : Nat) :
    (writeFileBlocksAux fdata region idxs pos).length = region.length := by
  induction idxs generalizing region pos with
  | nil => rfl
  | cons x xs ih =>
      show (writeFileBlocksAux fdata (region.set x (fileChunk fdata pos)) xs (pos + 1)).length = _
      rw [ih, List.length_set]

theorem writeFileBlocksAux_getD_not_mem (fdata : List Nat) (region : List (List Nat))
    (idxs : List Nat) (pos : Nat) {j : Nat} (hj : j ∉ idxs) :
    (writeFileBlocksAux fdata region idxs pos).getD j [] = region.getD j [] := by
  induction idxs generalizing region pos with
  | nil => rfl
  | cons x xs ih =>
      show (writeFileBlocksAux fdata (region.set x (fileChunk fdata pos)) xs (pos + 1)).getD j [] = _
      rw [ih _ _ (fun hm => hj (List.mem_cons_of_mem x hm))]
      have hxj : x ≠ j := fun he => hj (he ▸ List.mem_cons_self x xs)
      rw [List.getD_eq_getElem?_getD, List.getD_eq_getElem?_getD,
          List.getElem?_set_ne hxj]

theorem writeFileBlocksAux_getD_at (fdata : List Nat) (region : List (List Nat))
    (idxs : List Nat) (pos : Nat) (hnd : idxs.Nodup)
    (hlen : ∀ i ∈ idxs, i < region.length) (k : Nat) (hk : k < idxs.length) :
    (writeFileBlocksAux fdata region idxs pos).getD (idxs.getD k 0) [] =
      fileChunk fdata (pos + k) := by
  induction idxs generalizing region pos k with
  | nil => exact absurd hk (by simp)
  | cons x xs ih =>
      cases k with
      | zero =>
          show (writeFileBlocksAux fdata (region.set x (fileChunk fdata pos)) xs (pos + 1)).getD x [] = _
          rw [writeFileBlocksAux_getD_not_mem _ _ _ _ ((List.nodup_cons.mp hnd).1)]
          rw [List.getD_eq_getElem?_getD,
              List.getElem?_set_self (hlen x (List.mem_cons_self x xs))]
          simp
      | succ k2 =>
          show (writeFileBlocksAux fdata (region.set x (fileChunk fdata pos)) xs (pos + 1)).getD
              (xs.getD k2 0) [] = _
          rw [ih _ _ (List.nodup_cons.mp hnd).2
            (fun i hi => by rw [List.length_set]; exact hlen i (List.mem_cons_of_mem x hi))
            k2 (Nat.lt_of_succ_lt_succ hk)]
          congr 1
          omega

theorem map_pair_ne_error (r : Except AddErr Image) (k : Nat) (e : AddErr)
    (hr : ∀ e2, r = .error e2 → e2 ≠ e) :
    Except.map (fun i2 => (i2, k)) r ≠ .error e := by
  cases r with
  | ok v => intro hc; exact Except.noConfusion hc
  | error e2 =>
      intro hc
      have h2 : (Except.error e2 : Except AddErr (Image × Nat)) = Except.error e := hc
      cases h2
      exact hr _ rfl rfl

theorem placeDirent_no_formatError (img1 : Image) (no : Nat) (nm : List Nat)
    (now : Nat) (e : AddErr) (h : placeDirent img1 no nm now = .error e) :
    e ≠ AddErr.formatError := by
  simp only [placeDirent] at h
  split at h
  · exact Except.noConfusion h
  · split at h
    · cases h
      decide
    · split at h
      · cases h
        decide
      · exact Except.noConfusion h

/-! ### Inversion lemmas for the success path -/

theorem map_pair_ok {r : Except AddErr Image} {k : Nat} {p : Image × Nat}
    (h : Except.map (fun i2 => (i2, k)) r = .ok p) :
    r = .ok p.1 ∧ p.2 = k := by
  cases r with
  | error e =>
      have h2 : (Except.error e : Except AddErr (Image × Nat)) = .ok p := h
      exact Except.noConfusion h2
  | ok v =>
      have h2 : (Except.ok (v, k) : Except AddErr (Image × Nat)) = .ok p := h
      injection h2 with h3
      rw [← h3]
      exact ⟨rfl, rfl⟩

theorem resImg_some_elim {img : Image} {nm fdata : List Nat} {now : Nat}
    {img' : Image} (h : resImg (addFile img nm fdata now) = some img') :
    ∃ no, addFile img nm fdata now = .ok (img', no) := by
  cases ha : addFile img nm fdata now with
  | error e =>
      rw [ha] at h
      exact Option.noConfusion h
  | ok p =>
      rw [ha] at h
      have h2 : some p.1 = some img' := h
      injection h2 with h3
      have h4 : (img', p.2) = p := by rw [← h3]
      exact ⟨p.2, by rw [h4]⟩

theorem scanPtrs_some_mem {region : List (List Nat)} {drs : Nat} {l : List Nat}
    {p s : Nat} (h : scanPtrs region drs l = some (p, s)) :
    p ∈ l ∧ p ≠ 0 ∧ findFreeSlot (blockRel region drs p) = some s := by
  induction l with
  | nil => exact Option.noConfusion h
  | cons x xs ih =>
      simp only [scanPtrs] at h
      split at h
      · exact Option.noConfusion h
      · rename_i hx
        split at h
        · rename_i s2 hfs
          injection h with h2
          injection h2 with hA hB
          subst hA
          subst hB
          exact ⟨List.mem_cons_self x xs, hx, hfs⟩
        · rcases ih h with ⟨h1, h2, h3⟩
          exact ⟨List.mem_cons_of_mem x h1, h2, h3⟩

theorem placeDirent_ok_elim {img1 : Image} {no : Nat} {nm : List Nat} {now : Nat}
    {img2 : Image} (h : placeDirent img1 no nm now = .ok img2) :
    (∃ p s, scanPtrs img1.dataRegion img1.sb.data_region_start
        (img1.itable.getD 0 zeroInode).direct = some (p, s) ∧
      img2 = placedImage img1 (newDirent no nm) now p s) ∨
    (∃ slot freeIdx,
      scanPtrs img1.dataRegion img1.sb.data_region_start
        (img1.itable.getD 0 zeroInode).direct = none ∧
      (img1.itable.getD 0 zeroInode).direct.enum.find? (fun q => q.2 == 0) = some slot ∧
      firstFree img1.dataBmap img1.sb.data_region_blocks = some freeIdx ∧
      img2 = extendedImage img1 (newDirent no nm) now slot.1 freeIdx) := by
  unfold placeDirent at h
  split at h
  · rename_i ps hscan
    injection h with h2
    exact Or.inl ⟨ps.1, ps.2, hscan, h2.symm⟩
  · rename_i hscan
    split at h
    · exact Except.noConfusion h
    · rename_i slot hslot
      split at h
      · exact Except.noConfusion h
      · rename_i freeIdx hfree
        injection h with h2
        exact Or.inr ⟨slot, freeIdx, hscan, hslot, hfree, h2.symm⟩

theorem addFile_ok_elim {img : Image} {nm fdata : List Nat} {now : Nat}
    {img' : Image} {no : Nat}
    (h : addFile img nm fdata now = .ok (img', no)) :
    ∃ inoIdx,
      firstFree img.inodeBmap img.sb.inode_count = some inoIdx ∧
      no = inoIdx + 1 ∧
      validateSb img = true ∧
      needBlocks fdata.length ≤ DIRECT_MAX ∧
      needBlocks fdata.length ≤
        (firstFreeList img.dataBmap img.sb.data_region_blocks
          (needBlocks fdata.length)).length ∧
      placeDirent (addCore img fdata now inoIdx
          (firstFreeList img.dataBmap img.sb.data_region_blocks
            (needBlocks fdata.length)))
        (inoIdx + 1) nm now = .ok img' := by
  unfold addFile at h
  cases hv : validateSb img with
  | false =>
      rw [hv] at h
      rw [if_pos rfl] at h
      exact Except.noConfusion h
  | true =>
      rw [hv] at h
      rw [if_neg (by simp)] at h
      split at h
      · exact Except.noConfusion h
      · rename_i hbig
        split at h
        · exact Except.noConfusion h
        · rename_i inoIdx hff
          split at h
          · exact Except.noConfusion h
          · rename_i hlen
            rcases map_pair_ok h with ⟨hp, hno⟩
            exact ⟨inoIdx, hff, hno, rfl, Nat.le_of_not_lt hbig,
              Nat.le_of_not_lt hlen, hp⟩

/-! ### Projection and root lemmas -/

theorem addCore_itable (img : Image) (fdata : List Nat) (now inoIdx : Nat)
    (dbIdxs : List Nat) :
    (addCore img fdata now inoIdx dbIdxs).itable =
      img.itable.set inoIdx
        (mkFileInode fdata.length now
          (dbIdxs.map (fun i => img.sb.data_region_start + i))) := rfl

theorem addCore_dataRegion (img : Image) (fdata : List Nat) (now inoIdx : Nat)
    (dbIdxs : List Nat) :
    (addCore img fdata now inoIdx dbIdxs).dataRegion =
      writeFileBlocks img.dataRegion dbIdxs fdata := rfl

theorem getD_set_zero (l : List Inode) (x : Inode) (h : 0 < l.length) :
    (l.set 0 x).getD 0 zeroInode = x := by
  rw [List.getD_eq_getElem?_getD, List.getElem?_set_self h]
  rfl

theorem bumpRoot_links (r : Inode) (now : Nat) :
    (bumpRoot r now).links = r.links + 1 := rfl

theorem links_set_direct (r : Inode) (d : List Nat) :
    ({ r with direct := d } : Inode).links = r.links := rfl

theorem placedImage_itable (img1 : Image) (de : Dirent) (now p s : Nat) :
    (placedImage img1 de now p s).itable =
      img1.itable.set 0 (bumpRoot (img1.itable.getD 0 zeroInode) now) := rfl

theorem extendedImage_itable (img1 : Image) (de : Dirent) (now slot freeIdx : Nat) :
    (extendedImage img1 de now slot freeIdx).itable =
      img1.itable.set 0
        (bumpRoot { img1.itable.getD 0 zeroInode with
            direct := (img1.itable.getD 0 zeroInode).direct.set slot
              (img1.sb.data_region_start + freeIdx) } now) := rfl

theorem firstFree_ne_zero {b limit i : Nat} (h : firstFree b limit = some i)
    (h0 : b.testBit 0 = true) : i ≠ 0 := by
  intro he
  subst he
  have hf := (firstFree_spec h).1
  rw [h0] at hf
  exact Bool.noConfusion hf

theorem addCore_root (img : Image) (fdata : List Nat) (now inoIdx : Nat)
    (dbIdxs : List Nat) (hne : inoIdx ≠ 0) :
    (addCore img fdata now inoIdx dbIdxs).itable.getD 0 zeroInode = img.root := by
  rw [addCore_itable, List.getD_eq_getElem?_getD, List.getElem?_set_ne hne,
      ← List.getD_eq_getElem?_getD]
  rfl

theorem addCore_sb (img : Image) (fdata : List Nat) (now inoIdx : Nat)
    (dbIdxs : List Nat) : (addCore img fdata now inoIdx dbIdxs).sb = img.sb := rfl

theorem addCore_inodeBmap (img : Image) (fdata : List Nat) (now inoIdx : Nat)
    (dbIdxs : List Nat) :
    (addCore img fdata now inoIdx dbIdxs).inodeBmap = setBit img.inodeBmap inoIdx := rfl

theorem addCore_dataBmap (img : Image) (fdata : List Nat) (now inoIdx : Nat)
    (dbIdxs : List Nat) :
    (addCore img fdata now inoIdx dbIdxs).dataBmap = setBits img.dataBmap dbIdxs := rfl

theorem placedImage_sb (img1 : Image) (de : Dirent) (now p s : Nat) :
    (placedImage img1 de now p s).sb = img1.sb := rfl

theorem placedImage_inodeBmap (img1 : Image) (de : Dirent) (now p s : Nat) :
    (placedImage img1 de now p s).inodeBmap = img1.inodeBmap := rfl

theorem placedImage_dataBmap (img1 : Image) (de : Dirent) (now p s : Nat) :
    (placedImage img1 de now p s).dataBmap = img1.dataBmap := rfl

theorem placedImage_dataRegion (img1 : Image) (de : Dirent) (now p s : Nat) :
    (placedImage img1 de now p s).dataRegion =
      img1.dataRegion.set (p - img1.sb.data_region_start)
        (writeBytes (img1.dataRegion.getD (p - img1.sb.data_region_start) [])
          (64 * s) (direntEncode de)) := rfl

theorem extendedImage_sb (img1 : Image) (de : Dirent) (now slot freeIdx : Nat) :
    (extendedImage img1 de now slot freeIdx).sb = img1.sb := rfl

theorem extendedImage_inodeBmap (img1 : Image) (de : Dirent) (now slot freeIdx : Nat) :
    (extendedImage img1 de now slot freeIdx).inodeBmap = img1.inodeBmap := rfl

theorem extendedImage_dataBmap (img1 : Image) (de : Dirent) (now slot freeIdx : Nat) :
    (extendedImage img1 de now slot freeIdx).dataBmap =
      setBit img1.dataBmap freeIdx := rfl

theorem extendedImage_dataRegion (img1 : Image) (de : Dirent) (now slot freeIdx : Nat) :
    (extendedImage img1 de now slot freeIdx).dataRegion =
      img1.dataRegion.set freeIdx (direntEncode de) := rfl

/-! ### Chunk and block lemmas -/

theorem blockBytes_of_le {blk : List Nat} (h : blk.length ≤ BS) :
    blockBytes blk = blk ++ List.replicate (BS - blk.length) 0 := by
  unfold blockBytes
  apply List.take_of_length_le
  rw [List.length_append, List.length_replicate]
  omega

theorem fileChunk_length_le (fdata : List Nat) (i : Nat) :
    (fileChunk fdata i).length ≤ BS := by
  unfold fileChunk
  rw [List.length_take]
  exact Nat.min_le_left _ _

theorem fileChunk_succ (fdata : List Nat) (i : Nat) :
    fileChunk fdata (i + 1) = fileChunk (fdata.drop BS) i := by
  unfold fileChunk
  rw [List.drop_drop]
  have h : (i + 1) * BS = BS + i * BS := by ring
  rw [h]

theorem chunks_flatten (k : Nat) : ∀ l : List Nat, l.length ≤ k * BS →
    ((List.range k).map (fun i => blockBytes (fileChunk l i))).flatten =
      l ++ List.replicate (k * BS - l.length) 0 := by
  induction k with
  | zero =>
      intro l hl
      have h0 : l = [] := List.eq_nil_of_length_eq_zero (by omega)
      subst h0
      simp
  | succ k2 ih =>
      intro l hl
      have hexp : (k2 + 1) * BS = k2 * BS + BS := by ring
      rw [List.range_succ_eq_map, List.map_cons, List.map_map, List.flatten_cons]
      have hcomp : ((List.range k2).map
          ((fun i => blockBytes (fileChunk l i)) ∘ (fun i => i + 1))) =
          (List.range k2).map (fun i => blockBytes (fileChunk (l.drop BS) i)) := by
        apply List.map_congr_left
        intro a _
        show blockBytes (fileChunk l (a + 1)) = _
        rw [fileChunk_succ]
      rw [hcomp, ih (l.drop BS) (by rw [List.length_drop]; omega)]
      have hchunk0 : fileChunk l 0 = l.take BS := by
        unfold fileChunk
        rw [Nat.zero_mul, List.drop_zero]
      rcases Nat.le_total l.length BS with hle | hge
      · have hdrop : l.drop BS = [] := List.drop_eq_nil_of_le hle
        have htake : l.take BS = l := List.take_of_length_le hle
        rw [hchunk0, htake, blockBytes_of_le hle, hdrop]
        simp only [List.length_nil, Nat.sub_zero, List.nil_append, List.append_assoc]
        rw [← List.replicate_add]
        have harith : BS - l.length + k2 * BS = (k2 + 1) * BS - l.length := by omega
        rw [harith]
      · have hlen0 : (l.take BS).length = BS := by
          rw [List.length_take]
          omega
        rw [hchunk0, blockBytes_of_le (Nat.le_of_eq hlen0), hlen0, Nat.sub_self,
            List.replicate_zero, List.append_nil, List.length_drop,
            ← List.append_assoc, List.take_append_drop]
        have harith : k2 * BS - (l.length - BS) = (k2 + 1) * BS - l.length := by omega
        rw [harith]

theorem map_getD_eq_range_map (l : List Nat) (f g : Nat → List Nat)
    (h : ∀ k, k < l.length → f (l.getD k 0) = g k) :
    l.map f = (List.range l.length).map g := by
  induction l generalizing g with
  | nil => rfl
  | cons x xs ih =>
      rw [List.map_cons, List.length_cons, List.range_succ_eq_map, List.map_cons,
          List.map_map]
      have h0 : f x = g 0 := h 0 (Nat.succ_pos _)
      rw [h0, ih (fun k => g (k + 1)) (fun k hk => h (k + 1) (Nat.succ_lt_succ hk))]
      rfl

theorem mkFileInode_size (fsize now : Nat) (abs : List Nat) :
    (mkFileInode fsize now abs).size_bytes = fsize := rfl

theorem mkFileInode_direct (fsize now : Nat) (abs : List Nat) :
    (mkFileInode fsize now abs).direct =
      (abs ++ List.replicate (12 - abs.length) 0).take 12 := rfl

theorem mkFileInode_direct_take (fsize now : Nat) (abs : List Nat)
    (h : abs.length ≤ 12) :
    (mkFileInode fsize now abs).direct.take abs.length = abs := by
  rw [mkFileInode_direct, List.take_take, Nat.min_eq_left h]
  exact List.take_left abs _

theorem getD_mem_of_lt (l : List Nat) (k : Nat) (hk : k < l.length) :
    l.getD k 0 ∈ l := by
  rw [List.getD_eq_getElem?_getD, List.getElem?_eq_getElem hk]
  exact List.getElem_mem hk

theorem writeFileBlocks_getD_at (fdata : List Nat) (region : List (List Nat))
    (idxs : List Nat) (hnd : idxs.Nodup)
    (hlen : ∀ i ∈ idxs, i < region.length) (k : Nat) (hk : k < idxs.length) :
    (writeFileBlocks region idxs fdata).getD (idxs.getD k 0) [] =
      fileChunk fdata k := by
  unfold writeFileBlocks
  rw [writeFileBlocksAux_getD_at fdata region idxs 0 hnd hlen k hk, Nat.zero_add]

/-! ### Directory-entry readback lemmas -/

theorem blockByte_writeBytes_at (blk : List Nat) (off : Nat) (bs : List Nat)
    (i : Nat) (hi : i < bs.length) :
    blockByte (writeBytes blk off bs) (off + i) = bs.getD i 0 := by
  unfold blockByte writeBytes
  have hpre : ((List.range off).map (blockByte blk)).length = off := by
    rw [List.length_map, List.length_range]
  rw [List.get?_eq_getElem?, List.append_assoc]
  rw [List.getElem?_append_right (by rw [hpre]; omega)]
  rw [hpre, Nat.add_sub_cancel_left]
  rw [List.getElem?_append_left hi]
  rw [← List.getD_eq_getElem?_getD]

theorem direntEncode_inode_byte0 (de : Dirent) :
    (direntEncode de).getD 0 0 = de.inode_no % 256 := rfl

theorem direntEncode_inode_byte1 (de : Dirent) :
    (direntEncode de).getD 1 0 = de.inode_no / 256 % 256 := rfl

theorem direntEncode_inode_byte2 (de : Dirent) :
    (direntEncode de).getD 2 0 = de.inode_no / 65536 % 256 := rfl

theorem direntEncode_inode_byte3 (de : Dirent) :
    (direntEncode de).getD 3 0 = de.inode_no / 16777216 % 256 := rfl

theorem direntEncode_length (de : Dirent) : (direntEncode de).length = 64 := by
  unfold direntEncode
  simp [le32]
  omega

theorem le32_decode (n : Nat) :
    n % 256 + n / 256 % 256 * 256 + n / 65536 % 256 * 65536 +
      n / 16777216 % 256 * 16777216 = n % 4294967296 := by
  omega

theorem direntNoAt_writeBytes (blk : List Nat) (s2 : Nat) (de : Dirent) :
    direntNoAt (writeBytes blk (64 * s2) (direntEncode de)) s2 =
      de.inode_no % 4294967296 := by
  have hlen := direntEncode_length de
  have e0 : blockByte (writeBytes blk (64 * s2) (direntEncode de)) (64 * s2) =
      (direntEncode de).getD 0 0 := by
    have h := blockByte_writeBytes_at blk (64 * s2) (direntEncode de) 0
      (by rw [hlen]; omega)
    rw [Nat.add_zero] at h
    exact h
  have e1 := blockByte_writeBytes_at blk (64 * s2) (direntEncode de) 1
    (by rw [hlen]; omega)
  have e2 := blockByte_writeBytes_at blk (64 * s2) (direntEncode de) 2
    (by rw [hlen]; omega)
  have e3 := blockByte_writeBytes_at blk (64 * s2) (direntEncode de) 3
    (by rw [hlen]; omega)
  unfold direntNoAt
  rw [e0, e1, e2, e3, direntEncode_inode_byte0, direntEncode_inode_byte1,
      direntEncode_inode_byte2, direntEncode_inode_byte3]
  exact le32_decode de.inode_no

theorem direntNoAt_encode_zero (de : Dirent) :
    direntNoAt (direntEncode de) 0 = de.inode_no % 4294967296 := by
  unfold direntNoAt
  have e0 : blockByte (direntEncode de) (64 * 0) = (direntEncode de).getD 0 0 := rfl
  have e1 : blockByte (direntEncode de) (64 * 0 + 1) = (direntEncode de).getD 1 0 := rfl
  have e2 : blockByte (direntEncode de) (64 * 0 + 2) = (direntEncode de).getD 2 0 := rfl
  have e3 : blockByte (direntEncode de) (64 * 0 + 3) = (direntEncode de).getD 3 0 := rfl
  rw [e0, e1, e2, e3, direntEncode_inode_byte0, direntEncode_inode_byte1,
      direntEncode_inode_byte2, direntEncode_inode_byte3]
  exact le32_decode de.inode_no

theorem newDirent_inode_no (no : Nat) (nm : List Nat) :
    (newDirent no nm).inode_no = no := rfl

/-- After a successful `placeDirent`, the new entry's stored inode number
(read back from the block and slot it was written to) is the 1-based inode
number passed in. -/
theorem dirent_no_stored {img1 : Image} {nm : List Nat} {now no : Nat}
    {img2 : Image}
    (hlen1 : img1.dataRegion.length = img1.sb.data_region_blocks)
    (hptr : ∀ p ∈ (img1.itable.getD 0 zeroInode).direct, p ≠ 0 →
      img1.sb.data_region_start ≤ p ∧
      p < img1.sb.data_region_start + img1.sb.data_region_blocks)
    (hno32 : no < 4294967296)
    (hp : placeDirent img1 no nm now = .ok img2) :
    ∃ rel s2, direntNoAt (img2.dataRegion.getD rel []) s2 = no := by
  rcases placeDirent_ok_elim hp with ⟨p, s, hscan, rfl⟩ |
    ⟨slot, freeIdx, hscan, hslot, hfree, rfl⟩
  · rcases scanPtrs_some_mem hscan with ⟨hpm, hpne, _⟩
    have hrel : p - img1.sb.data_region_start < img1.dataRegion.length := by
      rcases hptr p hpm hpne with ⟨h1, h2⟩
      rw [hlen1]
      omega
    refine ⟨p - img1.sb.data_region_start, s, ?_⟩
    rw [placedImage_dataRegion, List.getD_eq_getElem?_getD,
        List.getElem?_set_self hrel]
    show direntNoAt (writeBytes _ (64 * s) (direntEncode (newDirent no nm))) s = no
    rw [direntNoAt_writeBytes, newDirent_inode_no, Nat.mod_eq_of_lt hno32]
  · have hrel : freeIdx < img1.dataRegion.length := by
      rw [hlen1]
      exact (firstFree_spec hfree).2.1
    refine ⟨freeIdx, 0, ?_⟩
    rw [extendedImage_dataRegion, List.getD_eq_getElem?_getD,
        List.getElem?_set_self hrel]
    show direntNoAt (direntEncode (newDirent no nm)) 0 = no
    rw [direntNoAt_encode_zero, newDirent_inode_no, Nat.mod_eq_of_lt hno32]

theorem placeDirent_ok_parts {img1 : Image} {no : Nat} {nm : List Nat} {now : Nat}
    {img2 : Image} (hp : placeDirent img1 no nm now = .ok img2) :
    img2.sb = img1.sb ∧ img2.inodeBmap = img1.inodeBmap ∧
    (∃ rt, img2.itable = img1.itable.set 0 rt) ∧
    (img2.dataBmap = img1.dataBmap ∨
      ∃ freeIdx, firstFree img1.dataBmap img1.sb.data_region_blocks = some freeIdx ∧
        img2.dataBmap = setBit img1.dataBmap freeIdx) ∧
    img2.dataRegion.length = img1.dataRegion.length := by
  rcases placeDirent_ok_elim hp with ⟨p, s, hscan, rfl⟩ |
    ⟨slot, freeIdx, hscan, hslot, hfree, rfl⟩
  · exact ⟨rfl, rfl, ⟨_, rfl⟩, Or.inl rfl,
      by rw [placedImage_dataRegion, List.length_set]⟩
  · exact ⟨rfl, rfl, ⟨_, rfl⟩, Or.inr ⟨freeIdx, hfree, rfl⟩,
      by rw [extendedImage_dataRegion, List.length_set]⟩

/-- C4: if the source needs more than 12 direct blocks, `addFile` fails
with `fileTooLarge` (before any mutation: the error carries no image, so
the input image is untouched). -/
theorem addFile_fileTooLarge (img : Image) (nm fdata : List Nat) (now : Nat)
    (hv : validateSb img = true)
    (hbig : DIRECT_MAX < needBlocks fdata.length) :
    addFile img nm fdata now = .error .fileTooLarge := by
  unfold addFile
  rw [hv]
  simp [hbig]

/-- Witness for C4: a 49153-byte source (13 blocks) against the formatted
1024 KiB image. -/
theorem addFile_fileTooLarge_witness :
    addFile img0c [97] (List.replicate 49153 0) 7 = .error .fileTooLarge :=
  addFile_fileTooLarge img0c [97] (List.replicate 49153 0) 7 (by decide)
    (by rw [List.length_replicate]; decide)

/-- C6: the `format` layout: 1-block bitmaps at blocks 1 and 2, inode
table of `ceil(inode_count * 128 / 4096)` blocks at block 3, data region
filling the rest; concretely 256/4/7/249 for a 1024 KiB, 128-inode image. -/
theorem format_layout (s i t : Nat) (hb : cliOk s i = true) :
    (format s i t).sb.total_blocks = s * 1024 / 4096 ∧
    (format s i t).sb.inode_table_blocks = (i * 128 + 4095) / 4096 ∧
    (format s i t).sb.inode_bitmap_start = 1 ∧
    (format s i t).sb.inode_bitmap_blocks = 1 ∧
    (format s i t).sb.data_bitmap_start = 2 ∧
    (format s i t).sb.data_bitmap_blocks = 1 ∧
    (format s i t).sb.inode_table_start = 3 ∧
    (format s i t).sb.data_region_start = 3 + (format s i t).sb.inode_table_blocks ∧
    (format s i t).sb.data_region_blocks =
      (format s i t).sb.total_blocks - (format s i t).sb.data_region_start ∧
    (s = 1024 → i = 128 →
      (format s i t).sb.total_blocks = 256 ∧
      (format s i t).sb.inode_table_blocks = 4 ∧
      (format s i t).sb.data_region_start = 7 ∧
      (format s i t).sb.data_region_blocks = 249) := by
  refine ⟨rfl, itableBlocks_eq i, rfl, rfl, rfl, rfl, rfl, rfl, rfl, ?_⟩
  rintro rfl rfl
  refine ⟨rfl, rfl, rfl, rfl⟩

/-- Witness for C6 at the concrete 1024 KiB / 128-inode parameters. -/
theorem format_layout_witness :
    (format 1024 128 0).sb.total_blocks = 1024 * 1024 / 4096 ∧
    (format 1024 128 0).sb.inode_table_blocks = (128 * 128 + 4095) / 4096 ∧
    (format 1024 128 0).sb.inode_bitmap_start = 1 ∧
    (format 1024 128 0).sb.inode_bitmap_blocks = 1 ∧
    (format 1024 128 0).sb.data_bitmap_start = 2 ∧
    (format 1024 128 0).sb.data_bitmap_blocks = 1 ∧
    (format 1024 128 0).sb.inode_table_start = 3 ∧
    (format 1024 128 0).sb.data_region_start = 3 + (format 1024 128 0).sb.inode_table_blocks ∧
    (format 1024 128 0).sb.data_region_blocks =
      (format 1024 128 0).sb.total_blocks - (format 1024 128 0).sb.data_region_start ∧
    (1024 = 1024 → 128 = 128 →
      (format 1024 128 0).sb.total_blocks = 256 ∧
      (format 1024 128 0).sb.inode_table_blocks = 4 ∧
      (format 1024 128 0).sb.data_region_start = 7 ∧
      (format 1024 128 0).sb.data_region_blocks = 249) :=
  format_layout 1024 128 0 (by decide)

/-- C7: after `format` the root inode has 2 links, size of two directory
entries, first direct pointer at the first data-region block, and that
block holds exactly the `.` and `..` entries (both with inode number
`ROOT_INO`); every other slot has inode number 0. -/
theorem format_root_directory (s i t : Nat) (_hb : cliOk s i = true) :
    (format s i t).root.links = 2 ∧
    (format s i t).root.size_bytes = 2 * 64 ∧
    (format s i t).root.direct.getD 0 0 = (format s i t).sb.data_region_start ∧
    direntNoAt ((format s i t).dataRegion.getD 0 []) 0 = ROOT_INO ∧
    direntNameAt ((format s i t).dataRegion.getD 0 []) 0 = padName [46] ∧
    direntNoAt ((format s i t).dataRegion.getD 0 []) 1 = ROOT_INO ∧
    direntNameAt ((format s i t).dataRegion.getD 0 []) 1 = padName [46, 46] ∧
    ∀ s2 < 64, 2 ≤ s2 → direntNoAt ((format s i t).dataRegion.getD 0 []) s2 = 0 := by
  have hblk : (format s i t).dataRegion.getD 0 [] =
      direntEncode dotEntry ++ direntEncode dotdotEntry := rfl
  rw [hblk]
  exact ⟨rfl, rfl, rfl, by decide, by decide, by decide, by decide, by decide⟩

/-- Witness for C7 at the concrete 1024 KiB / 128-inode parameters. -/
theorem format_root_directory_witness :
    (format 1024 128 0).root.links = 2 ∧
    (format 1024 128 0).root.size_bytes = 2 * 64 ∧
    (format 1024 128 0).root.direct.getD 0 0 = (format 1024 128 0).sb.data_region_start ∧
    direntNoAt ((format 1024 128 0).dataRegion.getD 0 []) 0 = ROOT_INO ∧
    direntNameAt ((format 1024 128 0).dataRegion.getD 0 []) 0 = padName [46] ∧
    direntNoAt ((format 1024 128 0).dataRegion.getD 0 []) 1 = ROOT_INO ∧
    direntNameAt ((format 1024 128 0).dataRegion.getD 0 []) 1 = padName [46, 46] ∧
    ∀ s2 < 64, 2 ≤ s2 → direntNoAt ((format 1024 128 0).dataRegion.getD 0 []) s2 = 0 :=
  format_root_directory 1024 128 0 (by decide)

/-- C1 counterexample: in `imgCk` the stored superblock checksum differs
from the CRC32 recomputed over the zero-checksum serialization (it is the
correct checksum with one bit flipped), yet `addFile` succeeds — it never
recomputes the checksum. -/
theorem addFile_corrupt_checksum_passes :
    imgCk.sb.checksum ≠ sbCrc imgCk.sb ∧
    (addFile imgCk [97] [1] 7).isOk = true := by
  refine ⟨?_, by decide⟩
  have e1 : imgCk.sb = { img0c.sb with checksum := img0c.sb.checksum ^^^ 1 } := rfl
  rw [e1]
  exact flipped_checksum_invalid img0c.sb (format_checksum_valid 1024 128 0)

/-- C1 amended: `addFile`'s superblock validation checks magic, version,
block size and total block count, but not the stored checksum: altering
only the checksum field leaves validation passing, and `addFile` never
fails with `formatError` on such an image. -/
theorem addFile_checksum_not_validated (img : Image) (c : Nat)
    (nm fdata : List Nat) (now : Nat) (hv : validateSb img = true) :
    validateSb { img with sb := { img.sb with checksum := c } } = true ∧
    addFile { img with sb := { img.sb with checksum := c } } nm fdata now ≠
      Except.error AddErr.formatError := by
  have hv' : validateSb { img with sb := { img.sb with checksum := c } } = true := by
    simpa [validateSb, Image.totalBlocks] using hv
  refine ⟨hv', ?_⟩
  unfold addFile
  rw [hv']
  simp only [Bool.true_eq_false, if_false]
  split
  · simp
  · split
    · simp
    · split
      · simp
      · exact map_pair_ne_error _ _ _
          (fun e2 he => placeDirent_no_formatError _ _ _ _ e2 he)

/-- Witness for C1's amended theorem: flipping the checksum of the valid
formatted image. -/
theorem addFile_checksum_not_validated_witness :
    validateSb { img0c with sb := { img0c.sb with checksum := 5 } } = true ∧
    addFile { img0c with sb := { img0c.sb with checksum := 5 } } [97] [1] 7 ≠
      Except.error AddErr.formatError :=
  addFile_checksum_not_validated img0c 5 [97] [1] 7 (by decide)

/-- C2 counterexample: the root of the formatted image has 2 links, but
after one successful `addFile` it has 3 — `mkfs_adder.c` executes
`root->links += 1`, so the link count does not stay at 2. -/
theorem root_links_not_fixed :
    img0c.root.links = 2 ∧
    (resImg (addFile img0c [97] [1] 7)).map (fun i => i.root.links) = some 3 := by
  exact ⟨by decide, by decide⟩

/-- C2 amended: on every well-formed image, a successful `addFile`
increments the root inode's link count by exactly one (the
`root->links += 1` of `mkfs_adder.c`); it does not stay fixed at 2, so
after n additions the count is 2 + n. -/
theorem root_links_increment (img img' : Image) (nm fdata : List Nat) (now : Nat)
    (hw : wf img) (h : resImg (addFile img nm fdata now) = some img') :
    img'.root.links = img.root.links + 1 := by
  rcases resImg_some_elim h with ⟨no, hok⟩
  rcases addFile_ok_elim hok with ⟨inoIdx, hff, hno, hv, hbig, hlen, hp⟩
  rcases hw with ⟨hv2, hbit0, hdbit0, hitl, hdrl, hic, hdrb, hrdl, hroot⟩
  have hne : inoIdx ≠ 0 := firstFree_ne_zero hff hbit0
  have hcnt : 0 < img.itable.length := by
    rw [hitl]
    exact Nat.lt_of_le_of_lt (Nat.zero_le inoIdx) (firstFree_spec hff).2.1
  have hcore : (addCore img fdata now inoIdx
      (firstFreeList img.dataBmap img.sb.data_region_blocks
        (needBlocks fdata.length))).itable.length = img.itable.length := by
    rw [addCore_itable, List.length_set]
  rcases placeDirent_ok_elim hp with ⟨p, s, hscan, rfl⟩ |
    ⟨slot, freeIdx, hscan, hslot, hfree, rfl⟩
  · simp only [Image.root]
    rw [placedImage_itable, getD_set_zero _ _ (by rw [hcore]; exact hcnt),
        bumpRoot_links, addCore_root _ _ _ _ _ hne]
    rfl
  · simp only [Image.root]
    rw [extendedImage_itable, getD_set_zero _ _ (by rw [hcore]; exact hcnt),
        bumpRoot_links, links_set_direct, addCore_root _ _ _ _ _ hne]
    rfl

/-- Witness for C2's amended theorem: the formatted image's root has 2
links, and one successful add yields 3 = 2 + 1. -/
theorem root_links_increment_witness :
    ((resImg (addFile img0c [97] [1] 7)).getD img0c).root.links =
      img0c.root.links + 1 :=
  root_links_increment img0c ((resImg (addFile img0c [97] [1] 7)).getD img0c)
    [97] [1] 7 (by decide) rfl

/-- C3: when fewer than `ceil(fsize/BS)` data-bitmap bits are free below
`data_region_blocks`, `addFile` fails with `noSpace` and produces no
output image at all — in particular both bitmaps of the input image are
untouched; the bits collected during the failed scan are never set
(`mkfs_adder.c` sets bits only after the scan has found enough blocks). -/
theorem addFile_noSpace_all_or_nothing (img : Image) (nm fdata : List Nat)
    (now : Nat) (hv : validateSb img = true)
    (hn : needBlocks fdata.length ≤ DIRECT_MAX)
    (hins : (freeIdxs img.dataBmap img.sb.data_region_blocks).length <
      needBlocks fdata.length) :
    addFile img nm fdata now = .error .noSpace ∧
    resImg (addFile img nm fdata now) = none := by
  have hmain : addFile img nm fdata now = .error .noSpace := by
    unfold addFile
    rw [hv, if_neg (by simp), if_neg (Nat.not_lt.mpr hn)]
    cases hf : firstFree img.inodeBmap img.sb.inode_count with
    | none => simp only [hf]
    | some inoIdx =>
        have hlt : (firstFreeList img.dataBmap img.sb.data_region_blocks
            (needBlocks fdata.length)).length < needBlocks fdata.length := by
          rw [firstFreeList_length]
          omega
        simp only [hf]
        rw [if_pos hlt]
  exact ⟨hmain, by rw [hmain]; rfl⟩

/-- Witness for C3: the formatted image with a fully occupied data bitmap
rejects a 1-byte file with `noSpace`. -/
theorem addFile_noSpace_all_or_nothing_witness :
    addFile imgFullc [97] [1] 7 = .error .noSpace ∧
    resImg (addFile imgFullc [97] [1] 7) = none :=
  addFile_noSpace_all_or_nothing imgFullc [97] [1] 7 (by decide) (by decide)
    (by decide)

/-- C5: on a well-formed image (in particular any `format` output), after
a successful `addFile` the new inode (at table index `no - 1`) has
`size_bytes` equal to the source length, the concatenation of its direct
data blocks in pointer order truncated to `size_bytes` is byte-identical
to the source, and the concatenation padded to whole blocks is the source
followed by zeros (the final block is zero-padded beyond the remaining
byte count). -/
theorem addFile_content_roundtrip (img img' : Image) (nm fdata : List Nat)
    (now no : Nat) (hw : wf img)
    (h : resImg (addFile img nm fdata now) = some img')
    (hno : resNo (addFile img nm fdata now) = some no) :
    (img'.itable.getD (no - 1) zeroInode).size_bytes = fdata.length ∧
    readFile img' (img'.itable.getD (no - 1) zeroInode) = fdata ∧
    (((img'.itable.getD (no - 1) zeroInode).direct.take
        (needBlocks fdata.length)).map
      (fun p2 => blockBytes
        (blockRel img'.dataRegion img'.sb.data_region_start p2))).flatten =
      fdata ++ List.replicate (needBlocks fdata.length * BS - fdata.length) 0 := by
  rcases resImg_some_elim h with ⟨no2, hok⟩
  have hres : resNo (addFile img nm fdata now) = some no2 := by rw [hok]; rfl
  rw [hres] at hno
  injection hno with hnoeq
  rcases addFile_ok_elim hok with ⟨inoIdx, hff, hnoI, hv, hbig, hlen, hp⟩
  rcases hw with ⟨hv2, hbit0, hdbit0, hitl, hdrl, hic, hdrb2, hrdl, hroot⟩
  have hno' : no = inoIdx + 1 := by rw [← hnoeq, hnoI]
  have hne : inoIdx ≠ 0 := firstFree_ne_zero hff hbit0
  have hIdxLt : inoIdx < img.itable.length := by
    rw [hitl]
    exact (firstFree_spec hff).2.1
  generalize hL : firstFreeList img.dataBmap img.sb.data_region_blocks
    (needBlocks fdata.length) = L at hp hlen
  have hLle : L.length ≤ needBlocks fdata.length := by
    rw [← hL, firstFreeList_length]
    exact Nat.min_le_left _ _
  have hLlen : L.length = needBlocks fdata.length := Nat.le_antisymm hLle hlen
  have hLnodup : L.Nodup := by
    rw [← hL]
    exact firstFreeList_nodup _ _ _
  have hLboundDR : ∀ i ∈ L, i < img.dataRegion.length := by
    intro i hi
    rw [← hL] at hi
    rw [hdrl]
    exact (mem_firstFreeList hi).1
  have hLfree : ∀ i ∈ L, img.dataBmap.testBit i = false := by
    intro i hi
    rw [← hL] at hi
    exact (mem_firstFreeList hi).2
  have hchar : ∃ wIdx wBlk rt,
      img'.sb = img.sb ∧
      img'.itable = (img.itable.set inoIdx
        (mkFileInode fdata.length now
          (L.map (fun i => img.sb.data_region_start + i)))).set 0 rt ∧
      img'.dataRegion = (writeFileBlocks img.dataRegion L fdata).set wIdx wBlk ∧
      (img.dataBmap.testBit wIdx = true ∨ wIdx ∉ L) := by
    rcases placeDirent_ok_elim hp with ⟨p, s, hscan, rfl⟩ |
      ⟨slot, freeIdx, hscan, hslot, hfree, rfl⟩
    · refine ⟨p - img.sb.data_region_start, _, _, rfl, rfl, rfl, Or.inl ?_⟩
      rcases scanPtrs_some_mem hscan with ⟨hpm, hpne, _⟩
      rw [addCore_root _ _ _ _ _ hne] at hpm
      exact (hroot p hpm hpne).2.2
    · refine ⟨freeIdx, _, _, rfl, rfl, rfl, Or.inr ?_⟩
      have hfr := (firstFree_spec hfree).1
      have hfr2 : (setBits img.dataBmap L).testBit freeIdx = false := hfr
      exact (testBit_setBits_false img.dataBmap L freeIdx |>.mp hfr2).2
  rcases hchar with ⟨wIdx, wBlk, rt, hsb, hitb, hreg, hOr⟩
  have hsub : no - 1 = inoIdx := by omega
  have hInode : img'.itable.getD (no - 1) zeroInode =
      mkFileInode fdata.length now
        (L.map (fun i => img.sb.data_region_start + i)) := by
    rw [hsub, hitb, List.getD_eq_getElem?_getD, List.getElem?_set_ne (Ne.symm hne),
        List.getElem?_set_self hIdxLt]
    rfl
  have hDirTake : (mkFileInode fdata.length now
      (L.map (fun i => img.sb.data_region_start + i))).direct.take
        (needBlocks fdata.length) =
      L.map (fun i => img.sb.data_region_start + i) := by
    have h1 := mkFileInode_direct_take fdata.length now
      (L.map (fun i => img.sb.data_region_start + i))
      (by rw [List.length_map, hLlen]; exact hbig)
    rw [List.length_map, hLlen] at h1
    exact h1
  have hblocks : ∀ k, k < L.length →
      blockRel img'.dataRegion img.sb.data_region_start
        (img.sb.data_region_start + L.getD k 0) = fileChunk fdata k := by
    intro k hk
    unfold blockRel
    rw [Nat.add_sub_cancel_left, hreg]
    have hmem : L.getD k 0 ∈ L := getD_mem_of_lt L k hk
    have hne2 : wIdx ≠ L.getD k 0 := by
      intro he
      rcases hOr with hbit | hnotin
      · rw [he, hLfree _ hmem] at hbit
        exact Bool.noConfusion hbit
      · exact hnotin (he ▸ hmem)
    rw [List.getD_eq_getElem?_getD, List.getElem?_set_ne hne2,
        ← List.getD_eq_getElem?_getD]
    exact writeFileBlocks_getD_at fdata img.dataRegion L hLnodup hLboundDR k hk
  have hmapped : ((L.map (fun i => img.sb.data_region_start + i)).map
      (fun p2 => blockBytes
        (blockRel img'.dataRegion img'.sb.data_region_start p2))).flatten =
      fdata ++ List.replicate (needBlocks fdata.length * BS - fdata.length) 0 := by
    rw [hsb, List.map_map]
    rw [map_getD_eq_range_map L _ (fun k => blockBytes (fileChunk fdata k))
      (fun k hk => by
        show blockBytes (blockRel img'.dataRegion img.sb.data_region_start
          (img.sb.data_region_start + L.getD k 0)) = _
        rw [hblocks k hk])]
    rw [hLlen]
    exact chunks_flatten _ fdata (by unfold needBlocks BS; omega)
  refine ⟨?_, ?_, ?_⟩
  · rw [hInode]
    rfl
  · unfold readFile
    rw [hInode, mkFileInode_size, hDirTake, hmapped, List.take_left]
  · rw [hInode, hDirTake]
    exact hmapped

theorem addFile_ok_parts2 {img : Image} {nm fdata : List Nat} {now : Nat}
    {img' : Image} {no : Nat} (h : addFile img nm fdata now = .ok (img', no)) :
    ∃ inoIdx, firstFree img.inodeBmap img.sb.inode_count = some inoIdx ∧
      no = inoIdx + 1 ∧
      img'.sb = img.sb ∧
      img'.inodeBmap = setBit img.inodeBmap inoIdx ∧
      (img'.dataBmap = setBits img.dataBmap
          (firstFreeList img.dataBmap img.sb.data_region_blocks
            (needBlocks fdata.length)) ∨
        ∃ ext, firstFree (setBits img.dataBmap
            (firstFreeList img.dataBmap img.sb.data_region_blocks
              (needBlocks fdata.length))) img.sb.data_region_blocks = some ext ∧
          img'.dataBmap = setBit (setBits img.dataBmap
            (firstFreeList img.dataBmap img.sb.data_region_blocks
              (needBlocks fdata.length))) ext) := by
  rcases addFile_ok_elim h with ⟨inoIdx, hff, hno, hv, hbig, hlen, hp⟩
  rcases placeDirent_ok_parts hp with ⟨hsb, hibm, ⟨rt, hitb⟩, hdbm, hdrlen⟩
  refine ⟨inoIdx, hff, hno, ?_, ?_, ?_⟩
  · rw [hsb]
    rfl
  · rw [hibm]
    rfl
  · rcases hdbm with hEq | ⟨ext, hext, hEq⟩
    · exact Or.inl hEq
    · exact Or.inr ⟨ext, hext, hEq⟩

theorem addFile_data_mono {img : Image} {nm fdata : List Nat} {now : Nat}
    {img' : Image} {no : Nat} (h : addFile img nm fdata now = .ok (img', no)) :
    ∀ i, img.dataBmap.testBit i = true → img'.dataBmap.testBit i = true := by
  rcases addFile_ok_parts2 h with ⟨inoIdx, hff, hno, hsb, hibm, hdb⟩
  intro i hi
  rcases hdb with hEq | ⟨ext, hext, hEq⟩
  · rw [hEq]
    exact (testBit_setBits _ _ _).mpr (Or.inl hi)
  · rw [hEq, testBit_setBit, (testBit_setBits _ _ _).mpr (Or.inl hi)]
    rfl

theorem addFile_inode_mono {img : Image} {nm fdata : List Nat} {now : Nat}
    {img' : Image} {no : Nat} (h : addFile img nm fdata now = .ok (img', no)) :
    ∀ i, img.inodeBmap.testBit i = true → img'.inodeBmap.testBit i = true := by
  rcases addFile_ok_parts2 h with ⟨inoIdx, hff, hno, hsb, hibm, hdb⟩
  intro i hi
  rw [hibm, testBit_setBit, hi]
  rfl

theorem addFile_alloc_below {img : Image} {nm fdata : List Nat} {now : Nat}
    {img' : Image} {no : Nat} (h : addFile img nm fdata now = .ok (img', no))
    (i : Nat) (hfree : img'.dataBmap.testBit i = false) :
    img.dataBmap.testBit i = false ∧
    ∀ j, img.dataBmap.testBit j = false → img'.dataBmap.testBit j = true →
      j < i := by
  rcases addFile_ok_parts2 h with ⟨inoIdx, hff, hno, hsb, hibm, hdb⟩
  rcases hdb with hEq | ⟨ext, hext, hEq⟩
  · rw [hEq] at hfree
    rcases (testBit_setBits_false _ _ _).mp hfree with ⟨hpreF, hnotin⟩
    refine ⟨hpreF, ?_⟩
    intro j hjF hjT
    rw [hEq] at hjT
    rcases (testBit_setBits _ _ _).mp hjT with hjP | hjM
    · rw [hjF] at hjP
      exact Bool.noConfusion hjP
    · have hjL := (mem_firstFreeList hjM).1
      by_cases hiL : i < img.sb.data_region_blocks
      · exact lt_of_free_not_mem_firstFreeList hjM hpreF hiL hnotin
      · omega
  · rw [hEq, testBit_setBit] at hfree
    rcases Bool.or_eq_false_iff.mp hfree with ⟨hsetF, hextne⟩
    have hextne2 : ext ≠ i := by
      intro he
      rw [he] at hextne
      simp at hextne
    rcases (testBit_setBits_false _ _ _).mp hsetF with ⟨hpreF, hnotin⟩
    refine ⟨hpreF, ?_⟩
    intro j hjF hjT
    rw [hEq, testBit_setBit, Bool.or_eq_true] at hjT
    rcases hjT with hjS | hjE
    · rcases (testBit_setBits _ _ _).mp hjS with hjP | hjM
      · rw [hjF] at hjP
        exact Bool.noConfusion hjP
      · have hjL := (mem_firstFreeList hjM).1
        by_cases hiL : i < img.sb.data_region_blocks
        · exact lt_of_free_not_mem_firstFreeList hjM hpreF hiL hnotin
        · omega
    · have hje : ext = j := by simpa using hjE
      subst hje
      rcases firstFree_spec hext with ⟨hextF, hextL, hextMin⟩
      by_cases hiL : i < img.sb.data_region_blocks
      · have hle := hextMin i hsetF hiL
        omega
      · omega

/-- Every image produced by `format` (under the CLI bounds) is
well-formed, so the `wf` hypotheses of the theorems above cover all
`format` outputs. -/
theorem format_wf (s i t : Nat) (hb : cliOk s i = true) : wf (format s i t) := by
  unfold cliOk at hb
  simp only [Bool.and_eq_true, decide_eq_true_eq] at hb
  obtain ⟨⟨⟨⟨h1, h2⟩, h3⟩, h4⟩, h5⟩ := hb
  have htb : 45 ≤ totalBlocksOf s ∧ totalBlocksOf s ≤ 1024 := by
    unfold totalBlocksOf BS
    omega
  have htbl : 4 ≤ itableBlocksOf i ∧ itableBlocksOf i ≤ 16 := by
    unfold itableBlocksOf BS INODE_SIZE
    omega
  have hreg : (format s i t).dataRegion.length =
      1 + (totalBlocksOf s - (3 + itableBlocksOf i) - 1) := by
    show ((direntEncode dotEntry ++ direntEncode dotdotEntry) ::
      List.replicate (totalBlocksOf s - (3 + itableBlocksOf i) - 1) []).length = _
    rw [List.length_cons, List.length_replicate]
    omega
  have hitlen : (format s i t).itable.length = i := by
    show (rootInode (3 + itableBlocksOf i) t ::
      List.replicate (i - 1) zeroInode).length = i
    rw [List.length_cons, List.length_replicate]
    omega
  refine ⟨?_, ?_, ?_, ?_, ?_, ?_, ?_, ?_, ?_⟩
  · unfold validateSb Image.totalBlocks
    have hm : (format s i t).sb.magic = MAGIC := rfl
    have hv : (format s i t).sb.version = 1 := rfl
    have hbs : (format s i t).sb.block_size = BS := rfl
    have ht : (format s i t).sb.total_blocks = totalBlocksOf s := rfl
    have hd : (format s i t).sb.data_region_start = 3 + itableBlocksOf i := rfl
    rw [hm, hv, hbs, ht, hd, hreg]
    simp only [Bool.and_eq_true, beq_iff_eq]
    exact ⟨⟨⟨trivial, trivial⟩, trivial⟩, by omega⟩
  · show Nat.testBit (setBit 0 0) 0 = true
    decide
  · show Nat.testBit (setBit 0 0) 0 = true
    decide
  · rw [hitlen]
    rfl
  · rw [hreg]
    show 1 + (totalBlocksOf s - (3 + itableBlocksOf i) - 1) =
      totalBlocksOf s - (3 + itableBlocksOf i)
    omega
  · show i ≤ BS * 8
    unfold BS
    omega
  · show totalBlocksOf s - (3 + itableBlocksOf i) ≤ BS * 8
    unfold BS
    omega
  · show ((3 + itableBlocksOf i) :: List.replicate 11 0).length = 12
    rfl
  · intro p hp hpne
    have hdir : (format s i t).root.direct =
        (3 + itableBlocksOf i) :: List.replicate 11 0 := rfl
    rw [hdir] at hp
    have hd : (format s i t).sb.data_region_start = 3 + itableBlocksOf i := rfl
    have hdb : (format s i t).sb.data_region_blocks =
        totalBlocksOf s - (3 + itableBlocksOf i) := rfl
    rcases List.mem_cons.mp hp with rfl | hp2
    · rw [hd, hdb]
      refine ⟨Nat.le_refl _, ?_, ?_⟩
      · omega
      · rw [Nat.sub_self]
        show Nat.testBit (setBit 0 0) 0 = true
        decide
    · have : p = 0 := List.eq_of_mem_replicate hp2
      exact absurd this hpne

/-- A successful `addFile` preserves well-formedness, so the monotonicity
facts chain along any sequence of successful calls. -/
theorem wf_preserved {img : Image} {nm fdata : List Nat} {now : Nat}
    {img' : Image} {no : Nat} (hw : wf img)
    (h : addFile img nm fdata now = .ok (img', no)) : wf img' := by
  rcases addFile_ok_elim h with ⟨inoIdx, hff, hno, hv, hbig, hlen, hp⟩
  obtain ⟨hv2, hbit0, hdbit0, hitl, hdrl, hic, hdrb2, hrdl, hroot⟩ := hw
  have hne : inoIdx ≠ 0 := firstFree_ne_zero hff hbit0
  have hIdxLt : inoIdx < img.itable.length := by
    rw [hitl]
    exact (firstFree_spec hff).2.1
  rcases placeDirent_ok_parts hp with ⟨hsb', hibm', ⟨rt0, hitb'⟩, hdbm', hdrlen'⟩
  have hsb : img'.sb = img.sb := by rw [hsb']; rfl
  have hlen' : img'.dataRegion.length = img.dataRegion.length := by
    rw [hdrlen', addCore_dataRegion]
    unfold writeFileBlocks
    rw [writeFileBlocksAux_length]
  have hitlen : img'.itable.length = img.itable.length := by
    rw [hitb', List.length_set, addCore_itable, List.length_set]
  have h0lt : 0 < img.itable.length := by omega
  have hmonoD := addFile_data_mono h
  have hmonoI := addFile_inode_mono h
  have hrootGet : ∀ rt2, img'.itable = ((addCore img fdata now inoIdx
      (firstFreeList img.dataBmap img.sb.data_region_blocks
        (needBlocks fdata.length))).itable.set 0 rt2) →
      img'.itable.getD 0 zeroInode = rt2 := by
    intro rt2 he
    rw [he, getD_set_zero]
    rw [addCore_itable, List.length_set]
    exact h0lt
  refine ⟨?_, hmonoI 0 hbit0, hmonoD 0 hdbit0, ?_, ?_, ?_, ?_, ?_⟩
  · unfold validateSb Image.totalBlocks at hv2 ⊢
    rw [hsb, hlen']
    exact hv2
  · rw [hitlen, hitl, hsb]
  · rw [hlen', hdrl, hsb]
  · rw [hsb]
    exact hic
  · rw [hsb]
    exact hdrb2
  rcases placeDirent_ok_elim hp with ⟨p, s, hscan, heq⟩ |
    ⟨slot, freeIdx, hscan, hslot, hfree, heq⟩
  · have hrt : img'.itable.getD 0 zeroInode =
        bumpRoot ((addCore img fdata now inoIdx
          (firstFreeList img.dataBmap img.sb.data_region_blocks
            (needBlocks fdata.length))).itable.getD 0 zeroInode) now := by
      apply hrootGet
      rw [heq, placedImage_itable]
    rw [addCore_root _ _ _ _ _ hne] at hrt
    have hdir : img'.root.direct = img.root.direct := by
      show (img'.itable.getD 0 zeroInode).direct = _
      rw [hrt]
      rfl
    constructor
    · rw [hdir]
      exact hrdl
    · intro p2 hp2 hp2ne
      rw [hdir] at hp2
      rcases hroot p2 hp2 hp2ne with ⟨ha1, hb, hc⟩
      rw [hsb]
      exact ⟨ha1, hb, hmonoD _ hc⟩
  · have hrt : img'.itable.getD 0 zeroInode =
        bumpRoot { (addCore img fdata now inoIdx
            (firstFreeList img.dataBmap img.sb.data_region_blocks
              (needBlocks fdata.length))).itable.getD 0 zeroInode with
          direct := ((addCore img fdata now inoIdx
            (firstFreeList img.dataBmap img.sb.data_region_blocks
              (needBlocks fdata.length))).itable.getD 0 zeroInode).direct.set slot.1
            ((addCore img fdata now inoIdx
              (firstFreeList img.dataBmap img.sb.data_region_blocks
                (needBlocks fdata.length))).sb.data_region_start + freeIdx) } now := by
      apply hrootGet
      rw [heq, extendedImage_itable]
    rw [addCore_root _ _ _ _ _ hne] at hrt
    have hfreeLt : freeIdx < img.sb.data_region_blocks := (firstFree_spec hfree).2.1
    have hdbm2 : img'.dataBmap.testBit freeIdx = true := by
      have : img'.dataBmap = setBit (addCore img fdata now inoIdx
          (firstFreeList img.dataBmap img.sb.data_region_blocks
            (needBlocks fdata.length))).dataBmap freeIdx := by
        rw [heq]
        rfl
      rw [this]
      exact testBit_setBit_self _ _
    have hdir : img'.root.direct =
        img.root.direct.set slot.1 (img.sb.data_region_start + freeIdx) := by
      show (img'.itable.getD 0 zeroInode).direct = _
      rw [hrt]
      rfl
    constructor
    · rw [hdir, List.length_set]
      exact hrdl
    · intro p2 hp2 hp2ne
      rw [hdir] at hp2
      rcases List.mem_or_eq_of_mem_set hp2 with hold | hnew
      · rcases hroot p2 hold hp2ne with ⟨ha2, hb2, hc2⟩
        rw [hsb]
        exact ⟨ha2, hb2, hmonoD _ hc2⟩
      · subst hnew
        rw [hsb]
        refine ⟨Nat.le_add_right _ _, by omega, ?_⟩
        rw [Nat.add_sub_cancel_left]
        exact hdbm2

/-- C8: across any two consecutive successful `addFile` calls on a
well-formed image, allocation is strictly increasing and never reuses
index 0: the returned inode numbers are at least 2 (index 0 is never
allocated) and strictly increase, every data-block index allocated by the
second call strictly exceeds every one allocated by the first, data-block
index 0 is never allocated, the indices allocated within one call are
strictly increasing (first-fit order), and no bit of either bitmap is ever
cleared. -/
theorem addFile_alloc_monotone (img img1 img2 : Image)
    (nm1 d1 nm2 d2 : List Nat) (t1 t2 no1 no2 : Nat) (hw : wf img)
    (h1 : addFile img nm1 d1 t1 = .ok (img1, no1))
    (h2 : addFile img1 nm2 d2 t2 = .ok (img2, no2)) :
    2 ≤ no1 ∧ no1 < no2 ∧
    (∀ j i, allocatedD img img1 j → allocatedD img1 img2 i → j < i) ∧
    ¬ allocatedD img img1 0 ∧ ¬ allocatedD img1 img2 0 ∧
    List.Pairwise (· < ·) (firstFreeList img.dataBmap
      img.sb.data_region_blocks (needBlocks d1.length)) ∧
    (∀ i, img.dataBmap.testBit i = true → img2.dataBmap.testBit i = true) ∧
    (∀ i, img.inodeBmap.testBit i = true → img2.inodeBmap.testBit i = true) ∧
    wf img1 ∧ wf img2 := by
  have hw1 : wf img1 := wf_preserved hw h1
  have hw2 : wf img2 := wf_preserved hw1 h2
  rcases hw with ⟨hv2, hbit0, hdbit0, hitl, hdrl, hic, hdrb2, hrdl, hroot⟩
  rcases addFile_ok_parts2 h1 with ⟨idx1, hff1, hno1, hsb1, hibm1, hdb1⟩
  rcases addFile_ok_parts2 h2 with ⟨idx2, hff2, hno2, hsb2, hibm2, hdb2⟩
  have hne1 : idx1 ≠ 0 := firstFree_ne_zero hff1 hbit0
  have hspec1 := firstFree_spec hff1
  have hspec2 := firstFree_spec hff2
  have hidx2F : (setBit img.inodeBmap idx1).testBit idx2 = false := by
    rw [← hibm1]
    exact hspec2.1
  have hidx2preF : img.inodeBmap.testBit idx2 = false := by
    rw [testBit_setBit] at hidx2F
    exact (Bool.or_eq_false_iff.mp hidx2F).1
  have hidx2ne : idx1 ≠ idx2 := by
    have := (Bool.or_eq_false_iff.mp (by rw [testBit_setBit] at hidx2F; exact hidx2F)).2
    intro he
    rw [he] at this
    simp at this
  have hlim2 : idx2 < img.sb.inode_count := by
    have := hspec2.2.1
    rw [hsb1] at this
    exact this
  have hidx12 : idx1 < idx2 := by
    have hle := hspec1.2.2 idx2 hidx2preF hlim2
    omega
  refine ⟨by omega, by omega, ?_, ?_, ?_, ?_, ?_, ?_, hw1, hw2⟩
  · intro j i haj hai
    exact (addFile_alloc_below h1 i hai.1).2 j haj.1 haj.2
  · intro ha
    have hcontr := ha.1
    rw [hdbit0] at hcontr
    exact Bool.noConfusion hcontr
  · intro ha
    have hcontr := ha.1
    rw [addFile_data_mono h1 0 hdbit0] at hcontr
    exact Bool.noConfusion hcontr
  · exact firstFreeList_sorted _ _ _
  · intro i hi
    exact addFile_data_mono h2 i (addFile_data_mono h1 i hi)
  · intro i hi
    exact addFile_inode_mono h2 i (addFile_inode_mono h1 i hi)

/-- Witness for C8: two consecutive adds on the formatted 1024 KiB image
(inode numbers 2 then 3; data blocks 1 then 2). -/
theorem addFile_alloc_monotone_witness :
    2 ≤ ((resNo (addFile img0c [97] [1] 7)).getD 0) ∧
    ((resNo (addFile img0c [97] [1] 7)).getD 0) <
      ((resNo (addFile ((resImg (addFile img0c [97] [1] 7)).getD img0c)
        [98] [2] 9)).getD 0) ∧
    (∀ j i, allocatedD img0c ((resImg (addFile img0c [97] [1] 7)).getD img0c) j →
      allocatedD ((resImg (addFile img0c [97] [1] 7)).getD img0c)
        ((resImg (addFile ((resImg (addFile img0c [97] [1] 7)).getD img0c)
          [98] [2] 9)).getD img0c) i → j < i) ∧
    ¬ allocatedD img0c ((resImg (addFile img0c [97] [1] 7)).getD img0c) 0 ∧
    ¬ allocatedD ((resImg (addFile img0c [97] [1] 7)).getD img0c)
      ((resImg (addFile ((resImg (addFile img0c [97] [1] 7)).getD img0c)
        [98] [2] 9)).getD img0c) 0 ∧
    List.Pairwise (· < ·) (firstFreeList img0c.dataBmap
      img0c.sb.data_region_blocks (needBlocks (([1] : List Nat)).length)) ∧
    (∀ i, img0c.dataBmap.testBit i = true →
      ((resImg (addFile ((resImg (addFile img0c [97] [1] 7)).getD img0c)
        [98] [2] 9)).getD img0c).dataBmap.testBit i = true) ∧
    (∀ i, img0c.inodeBmap.testBit i = true →
      ((resImg (addFile ((resImg (addFile img0c [97] [1] 7)).getD img0c)
        [98] [2] 9)).getD img0c).inodeBmap.testBit i = true) ∧
    wf ((resImg (addFile img0c [97] [1] 7)).getD img0c) ∧
    wf ((resImg (addFile ((resImg (addFile img0c [97] [1] 7)).getD img0c)
      [98] [2] 9)).getD img0c) :=
  addFile_alloc_monotone img0c ((resImg (addFile img0c [97] [1] 7)).getD img0c)
    ((resImg (addFile ((resImg (addFile img0c [97] [1] 7)).getD img0c)
      [98] [2] 9)).getD img0c)
    [97] [1] [98] [2] 7 9
    ((resNo (addFile img0c [97] [1] 7)).getD 0)
    ((resNo (addFile ((resImg (addFile img0c [97] [1] 7)).getD img0c)
      [98] [2] 9)).getD 0)
    (by decide) rfl rfl

/-- C10: adding a zero-length source file succeeds (given a free inode and
a free root-directory slot): the fresh inode has size 0, link count 1 and
all twelve direct pointers zero, no data block is allocated (the data
bitmap is byte-identical to the input's), and a directory entry carrying
the new inode number is still inserted into the root. -/
theorem addFile_empty_file (img : Image) (nm : List Nat) (now : Nat)
    (inoIdx p s : Nat) (hw : wf img)
    (hff : firstFree img.inodeBmap img.sb.inode_count = some inoIdx)
    (hscan : scanPtrs img.dataRegion img.sb.data_region_start
      img.root.direct = some (p, s)) :
    ∃ img', addFile img nm [] now = .ok (img', inoIdx + 1) ∧
      img'.dataBmap = img.dataBmap ∧
      (img'.itable.getD inoIdx zeroInode).size_bytes = 0 ∧
      (img'.itable.getD inoIdx zeroInode).links = 1 ∧
      (img'.itable.getD inoIdx zeroInode).direct = List.replicate 12 0 ∧
      direntNoAt (img'.dataRegion.getD (p - img.sb.data_region_start) []) s =
        inoIdx + 1 := by
  rcases hw with ⟨hv2, hbit0, hdbit0, hitl, hdrl, hic, hdrb2, hrdl, hroot⟩
  have hne : inoIdx ≠ 0 := firstFree_ne_zero hff hbit0
  have hIdxLt : inoIdx < img.itable.length := by
    rw [hitl]
    exact (firstFree_spec hff).2.1
  have hno32 : inoIdx + 1 < 4294967296 := by
    have h1 : inoIdx < img.sb.inode_count := (firstFree_spec hff).2.1
    have h2 : img.sb.inode_count ≤ BS * 8 := hic
    unfold BS at h2
    omega
  have hL0 : firstFreeList img.dataBmap img.sb.data_region_blocks
      (needBlocks ([] : List Nat).length) = [] := rfl
  have hroot1 : (addCore img [] now inoIdx []).itable.getD 0 zeroInode =
      img.root := addCore_root _ _ _ _ _ hne
  have hsc2 : scanPtrs (addCore img [] now inoIdx []).dataRegion
      (addCore img [] now inoIdx []).sb.data_region_start
      ((addCore img [] now inoIdx []).itable.getD 0 zeroInode).direct =
      some (p, s) := by
    rw [hroot1]
    exact hscan
  have hpd : placeDirent (addCore img [] now inoIdx []) (inoIdx + 1) nm now =
      .ok (placedImage (addCore img [] now inoIdx [])
        (newDirent (inoIdx + 1) nm) now p s) := by
    unfold placeDirent
    rw [hsc2]
  have hmain : addFile img nm [] now =
      .ok (placedImage (addCore img [] now inoIdx [])
        (newDirent (inoIdx + 1) nm) now p s, inoIdx + 1) := by
    unfold addFile
    rw [hv2, if_neg (by simp), if_neg (by decide)]
    simp only [hff]
    rw [hL0, if_neg (by decide), hpd]
    rfl
  refine ⟨_, hmain, rfl, ?_, ?_, ?_, ?_⟩
  · rw [placedImage_itable, List.getD_eq_getElem?_getD,
        List.getElem?_set_ne (Ne.symm hne), addCore_itable,
        List.getElem?_set_self hIdxLt]
    rfl
  · rw [placedImage_itable, List.getD_eq_getElem?_getD,
        List.getElem?_set_ne (Ne.symm hne), addCore_itable,
        List.getElem?_set_self hIdxLt]
    rfl
  · rw [placedImage_itable, List.getD_eq_getElem?_getD,
        List.getElem?_set_ne (Ne.symm hne), addCore_itable,
        List.getElem?_set_self hIdxLt]
    rfl
  · rcases scanPtrs_some_mem hscan with ⟨hpm, hpne, _⟩
    rcases hroot p hpm hpne with ⟨hge, hlt, _⟩
    have hrel : p - img.sb.data_region_start < img.dataRegion.length := by
      rw [hdrl]
      omega
    have hDR : (addCore img [] now inoIdx []).dataRegion = img.dataRegion := rfl
    have hSB : (addCore img [] now inoIdx []).sb = img.sb := rfl
    rw [placedImage_dataRegion, hDR, hSB, List.getD_eq_getElem?_getD,
        List.getElem?_set_self hrel]
    show direntNoAt (writeBytes _ (64 * s)
      (direntEncode (newDirent (inoIdx + 1) nm))) s = inoIdx + 1
    rw [direntNoAt_writeBytes, newDirent_inode_no, Nat.mod_eq_of_lt hno32]

/-- Witness for C10: a zero-length file added to the formatted 1024 KiB
image (free inode index 1, root slot (7, 2)). -/
theorem addFile_empty_file_witness :
    ∃ img', addFile img0c [98] [] 7 = .ok (img', 1 + 1) ∧
      img'.dataBmap = img0c.dataBmap ∧
      (img'.itable.getD 1 zeroInode).size_bytes = 0 ∧
      (img'.itable.getD 1 zeroInode).links = 1 ∧
      (img'.itable.getD 1 zeroInode).direct = List.replicate 12 0 ∧
      direntNoAt (img'.dataRegion.getD (7 - img0c.sb.data_region_start) []) 2 =
        1 + 1 :=
  addFile_empty_file img0c [98] 7 1 7 2 (by decide) (by decide) (by decide)

/-- C9: inode numbering is 1-based at the interface while storage is
0-based.  `format` stores root inode number 1, places the root at table
index 0 and sets inode-bitmap bit 0, and both root directory entries store
number 1.  On any well-formed image, a successful `addFile` that first-fit
picked table index `inoIdx` returns number `inoIdx + 1`, sets bitmap bit
`inoIdx`, stores the new (regular-file) inode at table index `inoIdx`
leaving every other slot unchanged, and the inserted directory entry
stores the 1-based number. -/
theorem inode_numbering_one_based :
    (∀ s i t, cliOk s i = true →
      (format s i t).sb.root_inode = 1 ∧
      (format s i t).inodeBmap.testBit 0 = true ∧
      (format s i t).itable.getD 0 zeroInode = rootInode (3 + itableBlocksOf i) t ∧
      direntNoAt ((format s i t).dataRegion.getD 0 []) 0 = 1 ∧
      direntNoAt ((format s i t).dataRegion.getD 0 []) 1 = 1) ∧
    (∀ img img' nm fdata now no inoIdx, wf img →
      resImg (addFile img nm fdata now) = some img' →
      resNo (addFile img nm fdata now) = some no →
      firstFree img.inodeBmap img.sb.inode_count = some inoIdx →
      no = inoIdx + 1 ∧
      img'.inodeBmap.testBit inoIdx = true ∧
      (img'.itable.getD inoIdx zeroInode).mode = 32768 ∧
      (∀ j, j ≠ inoIdx → j ≠ 0 →
        img'.itable.getD j zeroInode = img.itable.getD j zeroInode) ∧
      ∃ rel s2, direntNoAt (img'.dataRegion.getD rel []) s2 = no) := by
  constructor
  · intro s i t hb
    have hblk : (format s i t).dataRegion.getD 0 [] =
        direntEncode dotEntry ++ direntEncode dotdotEntry := rfl
    rw [hblk]
    exact ⟨rfl, show Nat.testBit (setBit 0 0) 0 = true by decide, rfl,
      by decide, by decide⟩
  · intro img img' nm fdata now no inoIdx hw h hno hff
    rcases resImg_some_elim h with ⟨no2, hok⟩
    have hres : resNo (addFile img nm fdata now) = some no2 := by rw [hok]; rfl
    rw [hres] at hno
    injection hno with hnoeq
    rcases addFile_ok_elim hok with ⟨inoIdx2, hff2, hnoI, hv, hbig, hlen, hp⟩
    rw [hff] at hff2
    injection hff2 with hidxeq
    subst hidxeq
    rcases hw with ⟨hv2, hbit0, hdbit0, hitl, hdrl, hic, hdrb2, hrdl, hroot⟩
    have hno' : no = inoIdx + 1 := by rw [← hnoeq, hnoI]
    have hne : inoIdx ≠ 0 := firstFree_ne_zero hff hbit0
    have hIdxLt : inoIdx < img.itable.length := by
      rw [hitl]
      exact (firstFree_spec hff).2.1
    rcases placeDirent_ok_parts hp with ⟨hsb, hibm, ⟨rt, hitb⟩, hdbm, hdrlen⟩
    refine ⟨hno', ?_, ?_, ?_, ?_⟩
    · rw [hibm, addCore_inodeBmap]
      exact testBit_setBit_self img.inodeBmap inoIdx
    · rw [hitb, addCore_itable, List.getD_eq_getElem?_getD,
          List.getElem?_set_ne (Ne.symm hne), List.getElem?_set_self hIdxLt]
      rfl
    · intro j hj1 hj0
      rw [hitb, addCore_itable, List.getD_eq_getElem?_getD,
          List.getElem?_set_ne (Ne.symm hj0), List.getElem?_set_ne (Ne.symm hj1),
          ← List.getD_eq_getElem?_getD]
    · have hno32 : no < 4294967296 := by
        have h1 : inoIdx < img.sb.inode_count := (firstFree_spec hff).2.1
        have h2 : img.sb.inode_count ≤ BS * 8 := hic
        unfold BS at h2
        omega
      apply dirent_no_stored _ _ hno32 ?hplace
      case hplace =>
        rw [← hno'] at hp
        exact hp
      · rw [addCore_dataRegion, addCore_sb]
        unfold writeFileBlocks
        rw [writeFileBlocksAux_length]
        exact hdrl
      · rw [addCore_root _ _ _ _ _ hne, addCore_sb]
        intro p2 hpm hpne
        exact ⟨(hroot p2 hpm hpne).1, (hroot p2 hpm hpne).2.1⟩

/-- Witness for C9: the 1024 KiB format plus one `addFile`, which
allocates table index 1 and returns inode number 2. -/
theorem inode_numbering_one_based_witness :
    ((format 1024 128 0).sb.root_inode = 1 ∧
      (format 1024 128 0).inodeBmap.testBit 0 = true ∧
      (format 1024 128 0).itable.getD 0 zeroInode =
        rootInode (3 + itableBlocksOf 128) 0 ∧
      direntNoAt ((format 1024 128 0).dataRegion.getD 0 []) 0 = 1 ∧
      direntNoAt ((format 1024 128 0).dataRegion.getD 0 []) 1 = 1) ∧
    (((resNo (addFile img0c [97] [1] 7)).getD 0) = 1 + 1 ∧
      ((resImg (addFile img0c [97] [1] 7)).getD img0c).inodeBmap.testBit 1 = true ∧
      (((resImg (addFile img0c [97] [1] 7)).getD img0c).itable.getD 1
        zeroInode).mode = 32768 ∧
      (∀ j, j ≠ 1 → j ≠ 0 →
        ((resImg (addFile img0c [97] [1] 7)).getD img0c).itable.getD j zeroInode =
          img0c.itable.getD j zeroInode) ∧
      ∃ rel s2, direntNoAt
        (((resImg (addFile img0c [97] [1] 7)).getD img0c).dataRegion.getD rel [])
        s2 = (resNo (addFile img0c [97] [1] 7)).getD 0) :=
  ⟨(inode_numbering_one_based.1 1024 128 0 (by decide)),
   (inode_numbering_one_based.2 img0c ((resImg (addFile img0c [97] [1] 7)).getD img0c)
     [97] [1] 7 ((resNo (addFile img0c [97] [1] 7)).getD 0) 1
     (by decide) rfl rfl (by decide))⟩

/-- Witness for C5: adding a 3-byte file to the formatted 1024 KiB image. -/
theorem addFile_content_roundtrip_witness :
    ((((resImg (addFile img0c [97] [5, 6, 7] 7)).getD img0c).itable.getD
        (((resNo (addFile img0c [97] [5, 6, 7] 7)).getD 0) - 1)
        zeroInode).size_bytes = (([5, 6, 7] : List Nat)).length) ∧
    readFile ((resImg (addFile img0c [97] [5, 6, 7] 7)).getD img0c)
      (((resImg (addFile img0c [97] [5, 6, 7] 7)).getD img0c).itable.getD
        (((resNo (addFile img0c [97] [5, 6, 7] 7)).getD 0) - 1) zeroInode) =
      [5, 6, 7] ∧
    (((((resImg (addFile img0c [97] [5, 6, 7] 7)).getD img0c).itable.getD
          (((resNo (addFile img0c [97] [5, 6, 7] 7)).getD 0) - 1)
          zeroInode).direct.take
        (needBlocks (([5, 6, 7] : List Nat)).length)).map
      (fun p2 => blockBytes
        (blockRel ((resImg (addFile img0c [97] [5, 6, 7] 7)).getD img0c).dataRegion
          ((resImg (addFile img0c [97] [5, 6, 7] 7)).getD img0c).sb.data_region_start
          p2))).flatten =
      [5, 6, 7] ++
        List.replicate (needBlocks (([5, 6, 7] : List Nat)).length * BS -
          (([5, 6, 7] : List Nat)).length) 0 :=
  addFile_content_roundtrip img0c ((resImg (addFile img0c [97] [5, 6, 7] 7)).getD img0c)
    [97] [5, 6, 7] 7 ((resNo (addFile img0c [97] [5, 6, 7] 7)).getD 0)
    (by decide) rfl rfl

end MiniVSFS
